import Mathlib

/-!
Formal model of the focus-group engine in `src/core/src/Focusable.ts`
(classes `FocusableGroupContainer`, `FocusableGroup`, `Focusable`).

Conventions of the shallow embedding:
* DOM elements are identified by natural numbers; the document is a finite
  ordered tree `DomTree`.  `parentElement`, `firstElementChild`,
  `nextElementSibling` etc. are derived from the tree structure
  (`element.parentElement === container` is modelled as membership in the
  ordered child list of the container's node, which is equivalent in a DOM,
  where every node occurs once and has a unique parent).
* Groups are identified by natural numbers; object identity (`===`) on
  `FocusableGroup` objects is modelled as equality of their ids, matching
  the one-object-per-id discipline of the source.
* JS timers are modelled by explicit "tick" functions
  (`processOnChangeTick`, `updateVisibleTick`): calling the function is the
  timer firing.  The debounce guards (`if (this._onChangeTimer) return;`)
  only coalesce scheduling and carry no other state, so they are not part
  of the state.
* The reference comparison `this._visibleGroups !== this._prevVisibleGroups`
  is modelled by the boolean `visRefDiffers`: it is set when `_updateVisible`
  installs a fresh snapshot object and cleared when the change tick assigns
  `_prevVisibleGroups = _visibleGroups`; the two separate `{}` literals in
  the field initializers make it `true` initially.
* Host-environment queries that the source consumes from outside this
  repository (computed style, `offsetParent`, selector matching,
  `ModalityLayer`, `isElementVisibleInContainer`) are oracles in `Env`.
-/

/-- `Types.ElementVisibility`. -/
inductive Visibility where
  | Invisible
  | PartiallyVisible
  | Visible
deriving DecidableEq, Repr

/-- `Types.FocusableGroupFocusLimit`. -/
inductive FocusLimit where
  | Limited
  | LimitedTrapFocus
deriving DecidableEq, Repr

/-- `Types.FocusableGroupProps` (the fields this development reads).
`hasOnChange` models whether the optional `onChange` callback is present. -/
structure GroupProps where
  isLimitedProp : Option FocusLimit
  lookupVisibility : Option Visibility
  memorizeCurrent : Bool
  hasOnChange : Bool
deriving DecidableEq, Repr

/-- `Types.FocusableGroupState` (returned by `getGroupState` / `getState`).
`isCurrent` is `Option Bool`: `none` models `undefined`. -/
structure GroupState where
  isCurrent : Option Bool
  isPrevious : Bool
  isNext : Bool
  isFirst : Bool
  isLast : Bool
  isVisible : Visibility
  hasFocus : Bool
  siblingHasFocus : Bool
  isLimited : Bool
deriving DecidableEq, Repr

/-- A DOM element tree: element id plus ordered child subtrees. -/
inductive DomTree where
  | node : Nat → List DomTree → DomTree

/-- The element id at the root of a subtree. -/
def DomTree.eid : DomTree → Nat
  | .node i _ => i

/-- The child subtrees of the root. -/
def DomTree.childTrees : DomTree → List DomTree
  | .node _ cs => cs

mutual

/-- Ancestor chain of element `e` in the tree: `[e, parent e, …, root]`,
or `none` if `e` does not occur.  This is the walk
`for (let el = element; el; el = el.parentElement)`. -/
def findPathT (e : Nat) : DomTree → Option (List Nat)
  | .node i cs =>
    if i = e then some [e]
    else (findPathL e cs).map (fun p => p ++ [i])

/-- `findPathT` over a list of sibling subtrees, first hit wins. -/
def findPathL (e : Nat) : List DomTree → Option (List Nat)
  | [] => none
  | t :: ts => (findPathT e t) <|> findPathL e ts

end

mutual

/-- The subtree rooted at element `e`, if `e` occurs in the tree. -/
def findSubtreeT (e : Nat) : DomTree → Option DomTree
  | .node i cs =>
    if i = e then some (.node i cs)
    else findSubtreeL e cs

/-- `findSubtreeT` over a list of sibling subtrees, first hit wins. -/
def findSubtreeL (e : Nat) : List DomTree → Option DomTree
  | [] => none
  | t :: ts => (findSubtreeT e t) <|> findSubtreeL e ts

end

mutual

/-- Whether element `e` occurs in the subtree. -/
def treeHasT (e : Nat) : DomTree → Bool
  | .node i cs => i = e || treeHasL e cs

/-- `treeHasT` over a list of subtrees. -/
def treeHasL (e : Nat) : List DomTree → Bool
  | [] => false
  | t :: ts => treeHasT e t || treeHasL e ts

end

/-- Host-environment facts consumed from outside the repository
(node-tree primitives, computed styles, the modality-layer collaborator).
Modelled from the spec: these are the external collaborators of section 6
of the spec ("Consumed from the node-tree host …", "Consumed from the
modality-layer collaborator …"). -/
structure LayerInfo where
  /-- `layerInfo.layer.userId`. -/
  userId : Nat
  /-- `layerInfo.layer.isAlwaysAccessible()`. -/
  alwaysAccessible : Bool
  /-- `layerInfo.root.getCurrentLayerId()`. -/
  currentLayerId : Option Nat
deriving DecidableEq, Repr

structure Env where
  /-- The document tree. -/
  dom : DomTree
  /-- `ModalityLayer.getLayerFor(element)`. -/
  layerFor : Nat → Option LayerInfo
  /-- `ah.modalityLayer` on an element: `none` when absent, otherwise
  `some (isActive())`. -/
  elemLayerActive : Nat → Option Bool
  /-- attribute `aria-hidden` equals `"true"` (case-insensitively). -/
  ariaHidden : Nat → Bool
  /-- attribute `aria-disabled` equals `"true"` (case-insensitively). -/
  ariaDisabled : Nat → Bool
  /-- `el.matches(_focusableSelector)`. -/
  matchesFocusableSel : Nat → Bool
  /-- `el.tabIndex === -1`. -/
  tabIndexMinusOne : Nat → Bool
  /-- `el.offsetParent === null`. -/
  offsetParentNull : Nat → Bool
  /-- no `el.ownerDocument.defaultView`. -/
  noDefaultView : Nat → Bool
  /-- `getComputedStyle(el).visibility === 'hidden'`. -/
  styleVisibilityHidden : Nat → Bool
  /-- `isElementVisibleInContainer(element)` (the Visibility Classifier). -/
  visibleInContainer : Nat → Visibility

/-- Ancestor chain of `e` (including `e`) in the document, `[]` if absent. -/
def ancestorChain (env : Env) (e : Nat) : List Nat :=
  (findPathT e env.dom).getD []

/-- `e.parentElement` in the document. -/
def parentElem (env : Env) (e : Nat) : Option Nat :=
  (ancestorChain env e).tail.head?

/-- Ordered list of child element ids of `e` (`firstElementChild` /
`nextElementSibling` chain). -/
def childIds (env : Env) (e : Nat) : List Nat :=
  match findSubtreeT e env.dom with
  | some t => t.childTrees.map DomTree.eid
  | none => []

/-- `a.contains(b)`: `b` is `a` or a descendant of `a`. -/
def domContains (env : Env) (a b : Nat) : Bool :=
  match findSubtreeT a env.dom with
  | some t => treeHasT b t
  | none => false

/-- First `some` produced by `sel` along a list (the `for … break` scans of
`_setFirstLast` and `setCurrentGroup`). -/
def scanList (sel : Nat → Option Nat) : List Nat → Option Nat
  | [] => none
  | e :: es =>
    match sel e with
    | some g => some g
    | none => scanList sel es
/-- Boolean membership in a list of ids (`id in this._groups` /
`!newFocusedGroups[gid]`). -/
def memB (g : Nat) : List Nat → Bool
  | [] => false
  | x :: xs => g = x || memB g xs
/-- Keys of a JS object keep first-insertion order; later assignments to an
existing key do not duplicate it.  The accumulator carries the keys already
emitted. -/
def dedupGo : List Nat → List Nat → List Nat
  | [], _ => []
  | x :: xs, seen =>
    if memB x seen then dedupGo xs seen else x :: dedupGo xs (x :: seen)

def dedupKeepFirst (l : List Nat) : List Nat := dedupGo l []
/-- Remove a key from an association list (JS `delete obj[key]`). -/
def eraseK {α : Type} (l : List (Nat × α)) (k : Nat) : List (Nat × α) :=
  l.filter (fun p => p.1 ≠ k)

/-- Association-list lookup (JS `obj[key]`, `undefined` when absent). -/
def lookupK {α : Type} (l : List (Nat × α)) (k : Nat) : Option α :=
  (l.find? (fun p => p.1 = k)).map (·.2)

/-- Dynamic program state shared by the classes: the per-node side table
(`getAbilityHelpersOnElement` / `setAbilityHelpersOnElement`, modelled from
the spec: section 9 prescribes "an explicit node-keyed mapping"), the group
objects' own fields, and the module-level `_focusedGroups` map.
`containerStates` doubles as the `ah.focusableGroupContainer` side table:
an entry is present exactly while the container object is registered. -/
structure ContainerState where
  /-- `this._element` of the container. -/
  element : Nat
  /-- `this._groups`, as the insertion-ordered key list. -/
  groups : List Nat
  current : Option Nat
  prev : Option Nat
  next : Option Nat
  first : Option Nat
  last : Option Nat
  focused : Option Nat
  unlimited : Option Nat
  /-- `this._visibleGroups` (only non-Invisible entries are ever stored). -/
  visibleGroups : List (Nat × Visibility)
  hasFullyVisibleGroup : Bool
  prevCurrent : Option Nat
  prevPrev : Option Nat
  prevNext : Option Nat
  prevFirst : Option Nat
  prevLast : Option Nat
  prevFocused : Option Nat
  prevUnlimited : Option Nat
  prevVisibleGroups : List (Nat × Visibility)
  /-- `this._visibleGroups !== this._prevVisibleGroups` (reference
  inequality of the two snapshot objects). -/
  visRefDiffers : Bool
deriving DecidableEq, Repr

structure World where
  /-- `ah.focusableGroup` on an element. -/
  elemGroup : Nat → Option Nat
  /-- `group.getElement()`. -/
  groupElem : Nat → Nat
  /-- `group.getProps()`. -/
  groupProps : Nat → GroupProps
  /-- `group._container`, as the container's element id. -/
  groupContainer : Nat → Option Nat
  /-- live container objects, keyed by their element id. -/
  containerStates : Nat → Option ContainerState
  /-- the module-level `_focusedGroups`, as its ordered key list. -/
  focusedGroups : List Nat
  /-- fresh-id counter (`_lastId`). -/
  nextId : Nat

/-- State of a freshly constructed `FocusableGroupContainer`.  The two `{}`
literals initializing `_visibleGroups` and `_prevVisibleGroups` are distinct
objects, so the reference-inequality flag starts `true`. -/
def initialContainer (element : Nat) : ContainerState :=
  { element := element, groups := []
    current := none, prev := none, next := none, first := none, last := none
    focused := none, unlimited := none
    visibleGroups := [], hasFullyVisibleGroup := false
    prevCurrent := none, prevPrev := none, prevNext := none
    prevFirst := none, prevLast := none, prevFocused := none
    prevUnlimited := none, prevVisibleGroups := [], visRefDiffers := true }

/-- `FocusableGroupContainer._setFirstLast`: scan the direct children of the
container's element forward (resp. backward) for the first element whose
`ah.focusableGroup` is a member of `this._groups`.  (The scheduling side of
its trailing `_processOnChange()` call is a timer, modelled by explicitly
running `processOnChangeTick`.) -/
def setFirstLastM (env : Env) (w : World) (st : ContainerState) : ContainerState :=
  let sel : Nat → Option Nat := fun e =>
    match w.elemGroup e with
    | some g => if memB g st.groups then some g else none
    | none => none
  { st with
    first := scanList sel (childIds env st.element)
    last := scanList sel (childIds env st.element).reverse }

/-- `FocusableGroupContainer.addGroup` (`this._groups[group.id] = group`
keeps the original key position if it is already present). -/
def addGroupM (env : Env) (w : World) (st : ContainerState) (g : Nat) : ContainerState :=
  let st := { st with groups := if memB g st.groups then st.groups else st.groups ++ [g] }
  setFirstLastM env w st

/-- `FocusableGroupContainer.removeGroup`. -/
def removeGroupM (env : Env) (w : World) (st : ContainerState) (g : Nat) : ContainerState :=
  let st := { st with
    groups := st.groups.filter (fun x => x ≠ g)
    visibleGroups := eraseK st.visibleGroups g
    prevVisibleGroups := eraseK st.prevVisibleGroups g }
  setFirstLastM env w st

/-- `FocusableGroupContainer.setFocusedGroup`. -/
def setFocusedGroupM (st : ContainerState) (g : Option Nat) : ContainerState :=
  if g ≠ st.focused then { st with focused := g } else st

/-- `FocusableGroupContainer.setUnlimitedGroup`. -/
def setUnlimitedGroupM (st : ContainerState) (g : Option Nat) : ContainerState :=
  if g ≠ st.unlimited then { st with unlimited := g } else st

/-- `FocusableGroupContainer.setCurrentGroup`: `current` becomes the group
when it is a member, else `undefined`; `prev`/`next` are rescanned from the
current group's element over its siblings that carry an `ah.focusableGroup`
(membership is not rechecked in this scan), and stay `undefined` when the
element is not a direct child of the container's element. -/
def setCurrentGroupM (env : Env) (w : World) (st : ContainerState) (g : Nat) : ContainerState :=
  let cur : Option Nat := if memB g st.groups then some g else none
  let st := { st with current := cur, prev := none, next := none }
  match cur with
  | none => st
  | some c =>
    let ce := w.groupElem c
    let cs := childIds env st.element
    if memB ce cs then
      { st with
        prev := scanList w.elemGroup (cs.takeWhile (fun e => e ≠ ce)).reverse
        next := scanList w.elemGroup ((cs.dropWhile (fun e => e ≠ ce)).tail) }
    else st

/-- `FocusableGroupContainer.getCurrentGroup`: returns `_current` while it is
still a member, otherwise self-heals `_current` to `undefined` and returns
`null`. -/
def getCurrentGroupM (st : ContainerState) : Option Nat × ContainerState :=
  match st.current with
  | some c => if memB c st.groups then (some c, st) else (none, { st with current := none })
  | none => (none, { st with current := none })

/-- `FocusableGroupContainer.getGroupState`. -/
def getGroupStateM (w : World) (st : ContainerState) (g : Nat) : GroupState :=
  let props := w.groupProps g
  let isVisible := (lookupK st.visibleGroups g).getD Visibility.Invisible
  let isCurrent : Option Bool :=
    match st.current with
    | some c => some (c = g)
    | none => none
  let isCurrent : Option Bool :=
    if isCurrent = none ∧ props.lookupVisibility ≠ some Visibility.Invisible then
      if isVisible = Visibility.Invisible ∨
          (st.hasFullyVisibleGroup ∧ isVisible = Visibility.PartiallyVisible) then
        some false
      else isCurrent
    else isCurrent
  { isCurrent := isCurrent
    isPrevious := st.prev = some g
    isNext := st.next = some g
    isFirst := st.first = some g
    isLast := st.last = some g
    isVisible := isVisible
    hasFocus := st.focused = some g
    siblingHasFocus := st.focused.isSome ∧ st.focused ≠ some g
    isLimited :=
      if props.isLimitedProp = some FocusLimit.Limited ∨
          props.isLimitedProp = some FocusLimit.LimitedTrapFocus then
        st.unlimited ≠ some g
      else false }

/-- `FocusableGroupContainer.isEmpty`. -/
def isEmptyM (st : ContainerState) : Bool :=
  st.groups.isEmpty

/-- The body of the debounced `_updateVisible` timer: reclassify every
member group's element via the Visibility Classifier, and if anything
differs swap in the freshly built snapshot object (making the two snapshot
references different). -/
def updateVisibleTick (env : Env) (w : World) (st : ContainerState) : ContainerState :=
  let classified := st.groups.map (fun id => (id, env.visibleInContainer (w.groupElem id)))
  let visibleGroups := (classified.filter (fun p => p.2 ≠ Visibility.Invisible))
  let isChanged := classified.any (fun p =>
    (lookupK st.visibleGroups p.1).getD Visibility.Invisible ≠ p.2)
  if isChanged then
    { st with
      prevVisibleGroups := st.visibleGroups
      visibleGroups := visibleGroups
      visRefDiffers := true }
  else st

/-- The `if (this._prevFocused !== this._focused)` block of the
`_processOnChange` timer body: push every member group, clear
`current`/`prev`/`next` when focus left and the previously focused group
does not memorize current, and update the snapshot. -/
def tickFocusedStep (w : World) :
    ContainerState × List (Option Nat) → ContainerState × List (Option Nat)
  | (st, changed) =>
    if st.prevFocused ≠ st.focused then
      let changed := changed ++ st.groups.map some
      let blurClears : Bool :=
        match st.prevFocused with
        | some pf => !(w.groupProps pf).memorizeCurrent
        | none => false
      let st :=
        if st.focused = none ∧ blurClears then
          { st with current := none, prev := none, next := none }
        else st
      ({ st with prevFocused := st.focused }, changed)
    else (st, changed)

/-- The `if (this._prevCurrent !== this._current)` block. -/
def tickCurrentStep :
    ContainerState × List (Option Nat) → ContainerState × List (Option Nat)
  | (st, changed) =>
    if st.prevCurrent ≠ st.current then
      ({ st with prevCurrent := st.current }, changed ++ [st.prevCurrent, st.current])
    else (st, changed)

/-- The `if (this._prevPrev !== this._prev)` block. -/
def tickPrevStep :
    ContainerState × List (Option Nat) → ContainerState × List (Option Nat)
  | (st, changed) =>
    if st.prevPrev ≠ st.prev then
      ({ st with prevPrev := st.prev }, changed ++ [st.prevPrev, st.prev])
    else (st, changed)

/-- The `if (this._prevNext !== this._next)` block. -/
def tickNextStep :
    ContainerState × List (Option Nat) → ContainerState × List (Option Nat)
  | (st, changed) =>
    if st.prevNext ≠ st.next then
      ({ st with prevNext := st.next }, changed ++ [st.prevNext, st.next])
    else (st, changed)

/-- The `if (this._prevFirst !== this._first)` block. -/
def tickFirstStep :
    ContainerState × List (Option Nat) → ContainerState × List (Option Nat)
  | (st, changed) =>
    if st.prevFirst ≠ st.first then
      ({ st with prevFirst := st.first }, changed ++ [st.prevFirst, st.first])
    else (st, changed)

/-- The `if (this._prevLast !== this._last)` block. -/
def tickLastStep :
    ContainerState × List (Option Nat) → ContainerState × List (Option Nat)
  | (st, changed) =>
    if st.prevLast ≠ st.last then
      ({ st with prevLast := st.last }, changed ++ [st.prevLast, st.last])
    else (st, changed)

/-- The `if (this._prevUnlimited !== this._unlimited)` block. -/
def tickUnlimitedStep :
    ContainerState × List (Option Nat) → ContainerState × List (Option Nat)
  | (st, changed) =>
    if st.prevUnlimited ≠ st.unlimited then
      ({ st with prevUnlimited := st.unlimited }, changed ++ [st.prevUnlimited, st.unlimited])
    else (st, changed)

/-- The `if (this._visibleGroups !== this._prevVisibleGroups)` block:
recompute the has-fully-visible flag, push the groups whose visibility
classification changed in either direction (a non-member lookup pushes
`undefined`), and install the snapshot (making the references equal). -/
def tickVisibleStep :
    ContainerState × List (Option Nat) → ContainerState × List (Option Nat)
  | (st, changed) =>
    if st.visRefDiffers then
      let fwd := st.visibleGroups.map (fun p =>
        if (lookupK st.prevVisibleGroups p.1) ≠ some p.2 then
          some (if memB p.1 st.groups then some p.1 else none)
        else none)
      let changed := changed ++ fwd.filterMap id
      let hasFully := st.visibleGroups.any (fun p => p.2 = Visibility.Visible)
      let bwd := st.prevVisibleGroups.map (fun p =>
        if (lookupK st.visibleGroups p.1) ≠ some p.2 then
          some (if memB p.1 st.groups then some p.1 else none)
        else none)
      let changed := changed ++ bwd.filterMap id
      ({ st with
          hasFullyVisibleGroup := hasFully
          prevVisibleGroups := st.visibleGroups
          visRefDiffers := false }, changed)
    else (st, changed)

/-- The body of the debounced `_processOnChange` timer, returning the new
container state together with the ids of the groups whose `onChange`
callback fires, in invocation order: the blocks above collect the `changed`
list of (possibly `undefined`) group pointers; the final pass filters it to
present members and deduplicates via the `processed` set before invoking
the registered callbacks. -/
def processOnChangeTick (w : World) (st : ContainerState) :
    ContainerState × List Nat :=
  let p :=
    tickVisibleStep (tickUnlimitedStep (tickLastStep (tickFirstStep
      (tickNextStep (tickPrevStep (tickCurrentStep (tickFocusedStep w (st, []))))))))
  let members := p.2.filterMap (fun c =>
    match c with
    | some g => if memB g p.1.groups then some g else none
    | none => none)
  let uniq := dedupKeepFirst members
  let fired := uniq.filter (fun g => (w.groupProps g).hasOnChange)
  (p.1, fired)

/-- The default state `FocusableGroup.getState` returns when the group has
no owning container. -/
def defaultGroupState : GroupState :=
  { isCurrent := none, isPrevious := false, isNext := false
    isFirst := false, isLast := false, isVisible := Visibility.Invisible
    hasFocus := false, siblingHasFocus := false, isLimited := false }

/-- `FocusableGroup.getState`: delegate to the owning container when there
is one (a held container reference is always a live object, so the inner
lookup cannot miss for states produced by the operations below). -/
def groupGetStateM (w : World) (g : Nat) : GroupState :=
  match w.groupContainer g with
  | some ce =>
    match w.containerStates ce with
    | some st => getGroupStateM w st g
    | none => defaultGroupState
  | none => defaultGroupState

/-- `Focusable.isVisible`. -/
def isVisibleM (env : Env) (e : Nat) : Bool :=
  if env.offsetParentNull e then false
  else if env.noDefaultView e then false
  else if env.styleVisibilityHidden e then false
  else true

/-- The ancestor loop of `Focusable.isAccessible`. -/
def isAccessibleChain (env : Env) : List Nat → Bool
  | [] => true
  | e :: rest =>
    if env.elemLayerActive e == some false then true
    else if env.ariaHidden e then false
    else if env.ariaDisabled e then false
    else isAccessibleChain env rest

/-- `Focusable.isAccessible`. -/
def isAccessibleM (env : Env) (e : Nat) : Bool :=
  isAccessibleChain env (ancestorChain env e)

/-- `Focusable.isFocusable`. -/
def isFocusableM (env : Env) (e : Nat) (includeProg noAccessibleCheck : Bool) : Bool :=
  if env.matchesFocusableSel e && (includeProg || !env.tabIndexMinusOne e) then
    isVisibleM env e && (if noAccessibleCheck then true else isAccessibleM env e)
  else false

/-- The three outcomes of a `TreeWalker` filter
(`NodeFilter.FILTER_ACCEPT` / `FILTER_SKIP` / `FILTER_REJECT`). -/
inductive WalkFilter where
  | accept
  | skip
  | reject
deriving DecidableEq, Repr

mutual

/-- One step of `walker.nextNode()` at a single node: an accepted node is
returned, a skipped node is descended into, a rejected node's whole subtree
is passed over.  Modelled from the spec: `createElementTreeWalker` (in the
Tree Walker Adapter, not under `src/`) wraps the host's document-order tree
cursor with a client-supplied accept/reject/skip classification. -/
def seekFirstT (cl : Nat → WalkFilter) : DomTree → Option Nat
  | .node i cs =>
    match cl i with
    | .accept => some i
    | .skip => seekFirstC cl cs
    | .reject => none

/-- `walker.nextNode()` over a list of sibling subtrees in document order. -/
def seekFirstC (cl : Nat → WalkFilter) : List DomTree → Option Nat
  | [] => none
  | t :: ts =>
    match seekFirstT cl t with
    | some r => some r
    | none => seekFirstC cl ts

end

/-- `Focusable._acceptElement` specialized to `ignoreGroup = true` (the form
used through `_getGroupFirst(element, true)` inside `_isInCurrentGroup`,
where the group check is skipped); defined first because the general
`_acceptElement` consults `_isInCurrentGroup`, which in turn walks with
this specialization. -/
def acceptElementNG (env : Env) (accept : Nat → Bool) (ignoreLayer : Bool)
    (e : Nat) : WalkFilter :=
  let layerInfo := env.layerFor e
  let currentLayerId := layerInfo.bind LayerInfo.currentLayerId
  if ignoreLayer || layerInfo.isNone || currentLayerId.isNone ||
      (currentLayerId == layerInfo.map LayerInfo.userId) ||
      (layerInfo.map LayerInfo.alwaysAccessible == some true) then
    if accept e then .accept else .skip
  else
    if layerInfo.isSome then .reject else .skip

/-- `Focusable.findFirst` with `ignoreGroup = true`
(`_findElement(context, null, includeProg, ignoreLayer, true, false)`). -/
def findFirstNG (env : Env) (context : Nat) (includeProg ignoreLayer : Bool) :
    Option Nat :=
  match findSubtreeT context env.dom with
  | none => none
  | some t =>
    seekFirstC (acceptElementNG env (fun el => isFocusableM env el includeProg false)
      ignoreLayer) t.childTrees

/-- `Focusable._getGroupFirst(groupElement, true)` (the `ignoreGroup = true`
call made by `_isInCurrentGroup`). -/
def getGroupFirstNG (env : Env) (groupElement : Nat) : Option Nat :=
  if isFocusableM env groupElement false false then some groupElement
  else findFirstNG env groupElement false false

/-- `Focusable._isInCurrentGroup(element, unlimitedOnly)`.  The source loop
starts at the nearest enclosing group (`_findGroup`) and repeatedly jumps to
`_findGroup(groupElement.parentElement)`; since a group's `getElement()` is
exactly the ancestor element carrying its `ah.focusableGroup` entry, the
groups visited are the entries of the ancestor chain that carry a group,
nearest first, which is how the loop is rendered here.  `isValidForLimited`
is computed once, from the innermost group's element. -/
def isInCurrentGroupM (env : Env) (w : World) (element : Nat)
    (unlimitedOnly : Bool) : Bool :=
  let hits := (ancestorChain env element).filterMap
    (fun a => (w.elemGroup a).map (fun g => (a, g)))
  match hits with
  | [] => true
  | (ge0, _) :: _ =>
    let isValidForLimited :=
      unlimitedOnly &&
        (match getGroupFirstNG env ge0 with
         | some f => domContains env element f
         | none => false)
    hits.all (fun p =>
      let stt := groupGetStateM w p.2
      !(stt.isCurrent == some false) &&
      !(unlimitedOnly && stt.isLimited && !isValidForLimited))

/-- The public `Focusable.isInCurrentGroup`. -/
def isInCurrentGroupPub (env : Env) (w : World) (element : Nat) : Bool :=
  isInCurrentGroupM env w element false

/-- `Focusable._acceptElement`. -/
def acceptElementM (env : Env) (w : World) (accept : Nat → Bool)
    (ignoreLayer ignoreGroup : Bool) (e : Nat) : WalkFilter :=
  let layerInfo := env.layerFor e
  let currentLayerId := layerInfo.bind LayerInfo.currentLayerId
  if ignoreLayer || layerInfo.isNone || currentLayerId.isNone ||
      (currentLayerId == layerInfo.map LayerInfo.userId) ||
      (layerInfo.map LayerInfo.alwaysAccessible == some true) then
    if !ignoreGroup && !isInCurrentGroupM env w e true then .reject
    else if accept e then .accept else .skip
  else
    if layerInfo.isSome then .reject else .skip

/-- `Focusable.findFirst` (`_findElement` with no current element, forward,
default accept condition `isFocusable(el, includeProg)`). -/
def findFirstM (env : Env) (w : World) (context : Nat)
    (includeProg ignoreLayer ignoreGroup : Bool) : Option Nat :=
  match findSubtreeT context env.dom with
  | none => none
  | some t =>
    seekFirstC (acceptElementM env w (fun el => isFocusableM env el includeProg false)
      ignoreLayer ignoreGroup) t.childTrees

/-- `Focusable._getGroupFirst`. -/
def getGroupFirstM (env : Env) (w : World) (groupElement : Nat)
    (ignoreGroup : Bool) : Option Nat :=
  if isFocusableM env groupElement false false then some groupElement
  else findFirstM env w groupElement false false ignoreGroup

/-- `Focusable._findGroup`: nearest ancestor (or self) carrying an
`ah.focusableGroup`. -/
def findGroupM (env : Env) (w : World) (e : Nat) : Option Nat :=
  scanList w.elemGroup (ancestorChain env e)

/-- `props.isLimited` is `Limited` or `LimitedTrapFocus` (the guard of
`FocusableGroup.setUnlimited`). -/
def modeLimited (p : GroupProps) : Bool :=
  p.isLimitedProp == some FocusLimit.Limited ||
    p.isLimitedProp == some FocusLimit.LimitedTrapFocus

/-- Replace one container's state in the world. -/
def worldUpdateContainer (w : World) (ce : Nat) (f : ContainerState → ContainerState) :
    World :=
  { w with containerStates := fun x =>
      if x = ce then (w.containerStates ce).map f else w.containerStates x }

/-- `FocusableGroup.setFocused`. -/
def groupSetFocusedW (w : World) (g : Nat) (b : Bool) : World :=
  match w.groupContainer g with
  | some ce => worldUpdateContainer w ce
      (fun st => setFocusedGroupM st (if b then some g else none))
  | none => w

/-- `FocusableGroup.setUnlimited` (only effective when the group's
focus-limit mode is Limited or LimitedTrapFocus). -/
def groupSetUnlimitedW (w : World) (g : Nat) (b : Bool) : World :=
  if modeLimited (w.groupProps g) then
    match w.groupContainer g with
    | some ce => worldUpdateContainer w ce
        (fun st => setUnlimitedGroupM st (if b then some g else none))
    | none => w
  else w

/-- `FocusableGroup.setUnlimited` at the level of a single container state
(the `this._container` of the group being the given container). -/
def groupSetUnlimitedM (w : World) (st : ContainerState) (g : Nat) (b : Bool) :
    ContainerState :=
  if modeLimited (w.groupProps g) then
    setUnlimitedGroupM st (if b then some g else none)
  else st

/-- The calls `Focusable._onFocus` makes on groups, in order. -/
inductive FAction where
  | focusedCall (g : Nat) (b : Bool)
  | unlimitedCall (g : Nat) (b : Bool)
deriving DecidableEq, Repr

/-- The new `_focusedGroups` key list computed by `_onFocus`: groups on the
ancestor chain of the focused element, nearest first (JS object keys keep
first-insertion order). -/
def newFocusedChain (env : Env) (w : World) (el : Nat) : List Nat :=
  dedupKeepFirst ((ancestorChain env el).filterMap w.elemGroup)

/-- The first `_onFocus` loop: groups of the previous chain that are not in
the new one get `setFocused(false)` and `setUnlimited(false)`. -/
def processRemovals (w : World) : List Nat → World × List FAction
  | [] => (w, [])
  | g :: rest =>
    let w2 := groupSetUnlimitedW (groupSetFocusedW w g false) g false
    let r := processRemovals w2 rest
    (r.1, FAction.focusedCall g false :: FAction.unlimitedCall g false :: r.2)

/-- The second `_onFocus` loop: groups newly in the chain get
`setFocused(true)`, and `setUnlimited(true)` when the focused element is
not the group's first focusable (`_getGroupFirst(groupElement, false)`,
evaluated against the state as already mutated by this pass). -/
def processAdditions (env : Env) (el : Nat) : World → List Nat → World × List FAction
  | w, [] => (w, [])
  | w, g :: rest =>
    let w1 := groupSetFocusedW w g true
    let step : World × List FAction :=
      if getGroupFirstM env w1 (w.groupElem g) false ≠ some el then
        (groupSetUnlimitedW w1 g true,
          [FAction.focusedCall g true, FAction.unlimitedCall g true])
      else (w1, [FAction.focusedCall g true])
    let r := processAdditions env el step.1 rest
    (r.1, step.2 ++ r.2)

/-- `Focusable._onFocus`: no-op when focus moves to nothing; otherwise
diff the old and new focused-group chains, fire the clears then the sets,
and replace `_focusedGroups` with the new chain. -/
def onFocusM (env : Env) (w : World) (elOpt : Option Nat) : World × List FAction :=
  match elOpt with
  | none => (w, [])
  | some el =>
    let newFG := newFocusedChain env w el
    let removed := w.focusedGroups.filter (fun g => !memB g newFG)
    let added := newFG.filter (fun g => !memB g w.focusedGroups)
    let r1 := processRemovals w removed
    let r2 := processAdditions env el r1.1 added
    ({ r2.1 with focusedGroups := newFG }, r1.2 ++ r2.2)

/-- Two container states that agree on every field except the `focused` and
`unlimited` pointers — the only container fields `_onFocus`'s calls mutate. -/
def fuAgree (st st' : ContainerState) : Prop :=
  st'.element = st.element ∧ st'.groups = st.groups ∧ st'.current = st.current ∧
  st'.prev = st.prev ∧ st'.next = st.next ∧ st'.first = st.first ∧
  st'.last = st.last ∧ st'.visibleGroups = st.visibleGroups ∧
  st'.hasFullyVisibleGroup = st.hasFullyVisibleGroup ∧
  st'.prevCurrent = st.prevCurrent ∧ st'.prevPrev = st.prevPrev ∧
  st'.prevNext = st.prevNext ∧ st'.prevFirst = st.prevFirst ∧
  st'.prevLast = st.prevLast ∧ st'.prevFocused = st.prevFocused ∧
  st'.prevUnlimited = st.prevUnlimited ∧
  st'.prevVisibleGroups = st.prevVisibleGroups ∧
  st'.visRefDiffers = st.visRefDiffers

/-- Two worlds that agree on everything except the containers' `focused`
and `unlimited` pointers. -/
def fuVariant (w w' : World) : Prop :=
  w'.elemGroup = w.elemGroup ∧ w'.groupElem = w.groupElem ∧
  w'.groupProps = w.groupProps ∧ w'.groupContainer = w.groupContainer ∧
  w'.focusedGroups = w.focusedGroups ∧ w'.nextId = w.nextId ∧
  ∀ ce, match w.containerStates ce, w'.containerStates ce with
    | none, none => True
    | some st, some st' => fuAgree st st'
    | _, _ => False

/-- Write the `ah.focusableGroup` entry of an element
(`setAbilityHelpersOnElement(element, { focusableGroup: … })`). -/
def setAhGroup (w : World) (e : Nat) (g : Option Nat) : World :=
  { w with elemGroup := fun x => if x = e then g else w.elemGroup x }

/-- `FocusableGroup.setupContainer(remove?)`: re-derive the owning container
from the group's parent element, creating it lazily unless removing, and
move the group's membership if the owner changed. -/
def setupContainerW (env : Env) (w : World) (g : Nat) (remove : Bool) : World :=
  let el := w.groupElem g
  let containerElement := parentElem env el
  let curContainer := w.groupContainer g
  let (w, container) :=
    match containerElement with
    | none => (w, none)
    | some pe =>
      match w.containerStates pe with
      | some _ => (w, some pe)
      | none =>
        if !remove then
          ({ w with containerStates := fun x =>
              if x = pe then some (initialContainer pe) else w.containerStates x },
            some pe)
        else (w, none)
  if curContainer ≠ container then
    let w :=
      match curContainer with
      | some ce => worldUpdateContainer w ce (fun st => removeGroupM env w st g)
      | none => w
    let w := { w with groupContainer := fun x =>
        if x = g then container else w.groupContainer x }
    if !remove then
      match container with
      | some ce => worldUpdateContainer w ce (fun st => addGroupM env w st g)
      | none => w
    else w
  else w

/-- `Focusable.addGroup(element, props)`: throws when the element already
carries a group; otherwise constructs the group (which registers its side
table entry and binds its container) and dispatches the mutation event,
whose `_onMutation` handler re-runs `setupContainer`. -/
def focusableAddGroup (env : Env) (w : World) (element : Nat) (props : GroupProps) :
    Except Unit World :=
  if (w.elemGroup element).isSome then
    Except.error ()
  else
    let g := w.nextId
    let w := { w with
      nextId := w.nextId + 1
      groupElem := fun x => if x = g then element else w.groupElem x
      groupProps := fun x => if x = g then props else w.groupProps x }
    let w := setAhGroup w element (some g)
    let w := setupContainerW env w g false
    let w := setupContainerW env w g false
    Except.ok w

/-- `Focusable.removeGroup(element)`: silently does nothing when the element
carries no group; otherwise disposes the group and dispatches the removal
mutation event. -/
def focusableRemoveGroup (env : Env) (w : World) (element : Nat) : World :=
  match w.elemGroup element with
  | none => w
  | some g =>
    let w := setupContainerW env w g true
    let w := setAhGroup w (w.groupElem g) none
    let w := setupContainerW env w g true
    w

/-- A container-level membership mutation (claim about sequences of
`addGroup`/`removeGroup` calls on one container). -/
inductive COp where
  | add (g : Nat)
  | remove (g : Nat)
deriving DecidableEq, Repr

/-- Apply one membership mutation to a container. -/
def applyCOp (env : Env) (w : World) (st : ContainerState) : COp → ContainerState
  | .add g => addGroupM env w st g
  | .remove g => removeGroupM env w st g

section ConcreteInstances

/-- Concrete document for the container scenarios: element 10 with three
children 11, 12, 13 owned by groups 1, 2, 3; group 3's element is the only
fully visible one. -/
def envA : Env :=
  { dom := .node 10 [.node 11 [], .node 12 [], .node 13 []]
    layerFor := fun _ => none
    elemLayerActive := fun _ => none
    ariaHidden := fun _ => false
    ariaDisabled := fun _ => false
    matchesFocusableSel := fun _ => false
    tabIndexMinusOne := fun _ => false
    offsetParentNull := fun _ => false
    noDefaultView := fun _ => false
    styleVisibilityHidden := fun _ => false
    visibleInContainer := fun e => if e = 13 then .Visible else .Invisible }

def wA : World :=
  { elemGroup := fun e =>
      if e = 11 then some 1 else if e = 12 then some 2 else
      if e = 13 then some 3 else none
    groupElem := fun g =>
      if g = 1 then 11 else if g = 2 then 12 else if g = 3 then 13 else 0
    groupProps := fun _ =>
      { isLimitedProp := none, lookupVisibility := none
        memorizeCurrent := false, hasOnChange := true }
    groupContainer := fun g =>
      if g = 1 ∨ g = 2 ∨ g = 3 then some 10 else none
    containerStates := fun _ => none
    focusedGroups := []
    nextId := 100 }

/-- The container of element 10 after the three groups were added. -/
def stA : ContainerState :=
  addGroupM envA wA (addGroupM envA wA (addGroupM envA wA (initialContainer 10) 1) 2) 3

/-- … after the visibility-refresh timer fired … -/
def stAv : ContainerState := updateVisibleTick envA wA stA

/-- … after the first change-propagation tick settled … -/
def stAt1 : ContainerState := (processOnChangeTick wA stAv).1

/-- … and after `setCurrentGroup` made group 1 current. -/
def stAc : ContainerState := setCurrentGroupM envA wA stAt1 1

/-- `wA` with group 1 declared Limited (for the focus-limit claims). -/
def wB : World :=
  { wA with groupProps := fun g =>
      if g = 1 then
        { isLimitedProp := some FocusLimit.Limited, lookupVisibility := none
          memorizeCurrent := false, hasOnChange := true }
      else
        { isLimitedProp := none, lookupVisibility := none
          memorizeCurrent := false, hasOnChange := true } }

/-- A world carrying no groups and no containers at all. -/
def wEmpty : World :=
  { elemGroup := fun _ => none
    groupElem := fun _ => 0
    groupProps := fun _ =>
      { isLimitedProp := none, lookupVisibility := none
        memorizeCurrent := false, hasOnChange := false }
    groupContainer := fun _ => none
    containerStates := fun _ => none
    focusedGroups := []
    nextId := 100 }

/-- Document for the modality-layer scenario: root 0, element 1 the root of
an enclosing layer whose id (5) differs from the tracked current layer id
(7), element 2 a focusable button beneath it. -/
def envL : Env :=
  { dom := .node 0 [.node 1 [.node 2 []]]
    layerFor := fun e =>
      if e = 1 ∨ e = 2 then
        some { userId := 5, alwaysAccessible := false, currentLayerId := some 7 }
      else none
    elemLayerActive := fun e => if e = 1 then some true else none
    ariaHidden := fun _ => false
    ariaDisabled := fun _ => false
    matchesFocusableSel := fun e => e = 2
    tabIndexMinusOne := fun _ => false
    offsetParentNull := fun _ => false
    noDefaultView := fun _ => false
    styleVisibilityHidden := fun _ => false
    visibleInContainer := fun _ => .Invisible }

/-- `envL` with the layer marked always-accessible. -/
def envLA : Env :=
  { envL with layerFor := fun e =>
      if e = 1 ∨ e = 2 then some ⟨5, true, some 7⟩ else none }

/-- A document with no modality layers and a focusable element 1. -/
def envNL : Env :=
  { dom := .node 0 [.node 1 []]
    layerFor := fun _ => none
    elemLayerActive := fun _ => none
    ariaHidden := fun _ => false
    ariaDisabled := fun _ => false
    matchesFocusableSel := fun e => e = 1
    tabIndexMinusOne := fun _ => false
    offsetParentNull := fun _ => false
    noDefaultView := fun _ => false
    styleVisibilityHidden := fun _ => false
    visibleInContainer := fun _ => .Invisible }

/-- Document for the focus-change scenario: root 0 ⊃ element 1 (group 50)
⊃ element 2 (group 51) ⊃ focusable element 3. -/
def envF : Env :=
  { dom := .node 0 [.node 1 [.node 2 [.node 3 []]]]
    layerFor := fun _ => none
    elemLayerActive := fun _ => none
    ariaHidden := fun _ => false
    ariaDisabled := fun _ => false
    matchesFocusableSel := fun e => e = 3
    tabIndexMinusOne := fun _ => false
    offsetParentNull := fun _ => false
    noDefaultView := fun _ => false
    styleVisibilityHidden := fun _ => false
    visibleInContainer := fun _ => .Invisible }

def wF : World :=
  { elemGroup := fun e => if e = 1 then some 50 else if e = 2 then some 51 else none
    groupElem := fun g => if g = 50 then 1 else if g = 51 then 2 else 0
    groupProps := fun _ =>
      { isLimitedProp := none, lookupVisibility := some Visibility.Invisible
        memorizeCurrent := false, hasOnChange := false }
    groupContainer := fun g =>
      if g = 50 then some 0 else if g = 51 then some 1 else none
    containerStates := fun e =>
      if e = 0 then some { initialContainer 0 with groups := [50] }
      else if e = 1 then some { initialContainer 1 with groups := [51] }
      else none
    focusedGroups := []
    nextId := 100 }

end ConcreteInstances
theorem scanList_eq_none_iff (sel : Nat → Option Nat) (es : List Nat) :
    scanList sel es = none ↔ ∀ e ∈ es, sel e = none := by
  induction es with
  | nil => simp [scanList]
  | cons e es ih =>
    simp only [scanList]
    cases h : sel e with
    | some g => simp [h]
    | none => simpa [h] using ih

theorem scanList_eq_some_iff (sel : Nat → Option Nat) (es : List Nat) (g : Nat) :
    scanList sel es = some g ↔
      ∃ l e r, es = l ++ e :: r ∧ sel e = some g ∧ ∀ x ∈ l, sel x = none := by
  induction es with
  | nil => simp [scanList]
  | cons a es ih =>
    simp only [scanList]
    cases h : sel a with
    | some g' =>
      constructor
      · intro hg
        exact ⟨[], a, es, by simp, by simp [h, ← Option.some_inj.mp hg, hg], by simp⟩
      · rintro ⟨l, e, r, hsplit, hsel, hnone⟩
        cases l with
        | nil =>
          simp only [List.nil_append, List.cons.injEq] at hsplit
          rw [← hsplit.1] at hsel; rw [h] at hsel; exact hsel
        | cons x l =>
          simp only [List.cons_append, List.cons.injEq] at hsplit
          have := hnone x (by simp)
          rw [← hsplit.1] at this; rw [h] at this; exact absurd this (by simp)
    | none =>
      rw [ih]
      constructor
      · rintro ⟨l, e, r, hsplit, hsel, hnone⟩
        refine ⟨a :: l, e, r, by simp [hsplit], hsel, ?_⟩
        intro x hx
        rcases List.mem_cons.mp hx with hx | hx
        · rw [hx]; exact h
        · exact hnone x hx
      · rintro ⟨l, e, r, hsplit, hsel, hnone⟩
        cases l with
        | nil =>
          simp only [List.nil_append, List.cons.injEq] at hsplit
          rw [← hsplit.1] at hsel; rw [h] at hsel; exact absurd hsel (by simp)
        | cons x l =>
          simp only [List.cons_append, List.cons.injEq] at hsplit
          exact ⟨l, e, r, hsplit.2, hsel, fun y hy => hnone y (by simp [hy])⟩

theorem memB_iff (g : Nat) (l : List Nat) : memB g l = true ↔ g ∈ l := by
  induction l with
  | nil => simp [memB]
  | cons x xs ih => simp [memB, ih]

theorem mem_dedupGo (g : Nat) (l : List Nat) :
    ∀ seen, g ∈ dedupGo l seen ↔ (g ∈ l ∧ g ∉ seen) := by
  induction l with
  | nil => intro seen; simp [dedupGo]
  | cons x xs ih =>
    intro seen
    simp only [dedupGo]
    by_cases hx : memB x seen = true
    · have hxs : x ∈ seen := (memB_iff _ _).mp hx
      rw [if_pos hx, ih seen]
      simp only [List.mem_cons]
      constructor
      · rintro ⟨h1, h2⟩
        exact ⟨Or.inr h1, h2⟩
      · rintro ⟨h1 | h1, h2⟩
        · subst h1
          exact absurd hxs h2
        · exact ⟨h1, h2⟩
    · have hxs : x ∉ seen := fun h => hx ((memB_iff x seen).mpr h)
      rw [if_neg hx]
      simp only [List.mem_cons, ih (x :: seen), List.mem_cons]
      constructor
      · rintro (h | ⟨h1, h2⟩)
        · subst h
          exact ⟨Or.inl rfl, hxs⟩
        · exact ⟨Or.inr h1, fun hs => h2 (Or.inr hs)⟩
      · rintro ⟨h1 | h1, h2⟩
        · exact Or.inl h1
        · by_cases hgx : g = x
          · exact Or.inl hgx
          · refine Or.inr ⟨h1, ?_⟩
            rintro (h | h)
            · exact hgx h
            · exact h2 h

theorem mem_dedupKeepFirst (g : Nat) (l : List Nat) :
    g ∈ dedupKeepFirst l ↔ g ∈ l := by
  rw [dedupKeepFirst, mem_dedupGo]
  simp

theorem nodup_dedupGo (l : List Nat) : ∀ seen, (dedupGo l seen).Nodup := by
  induction l with
  | nil => intro seen; simp [dedupGo]
  | cons x xs ih =>
    intro seen
    simp only [dedupGo]
    split
    · exact ih seen
    · refine List.nodup_cons.mpr ⟨?_, ih (x :: seen)⟩
      intro hx
      exact ((mem_dedupGo x xs (x :: seen)).mp hx).2 (List.mem_cons_self _ _)

theorem nodup_dedupKeepFirst (l : List Nat) : (dedupKeepFirst l).Nodup :=
  nodup_dedupGo l []

theorem modeLimited_iff (p : GroupProps) :
    modeLimited p = true ↔
      (p.isLimitedProp = some FocusLimit.Limited ∨
       p.isLimitedProp = some FocusLimit.LimitedTrapFocus) := by
  simp [modeLimited]

theorem getGroupStateM_isLimited_eq (w : World) (st : ContainerState) (g : Nat) :
    (getGroupStateM w st g).isLimited =
      if (w.groupProps g).isLimitedProp = some FocusLimit.Limited ∨
          (w.groupProps g).isLimitedProp = some FocusLimit.LimitedTrapFocus
      then decide (st.unlimited ≠ some g) else false := rfl

theorem setFirstLastM_first_mem (env : Env) (w : World) (st : ContainerState) :
    ∀ gf, (setFirstLastM env w st).first = some gf →
      gf ∈ (setFirstLastM env w st).groups := by
  intro gf h
  simp only [setFirstLastM] at h ⊢
  obtain ⟨l, e, r, _, hsel, _⟩ := (scanList_eq_some_iff _ _ _).mp h
  revert hsel
  cases w.elemGroup e with
  | none => simp
  | some g' =>
    simp only
    split
    · intro hg
      cases hg
      exact (memB_iff _ _).mp (by assumption)
    · simp

theorem setFirstLastM_last_mem (env : Env) (w : World) (st : ContainerState) :
    ∀ gl, (setFirstLastM env w st).last = some gl →
      gl ∈ (setFirstLastM env w st).groups := by
  intro gl h
  simp only [setFirstLastM] at h ⊢
  obtain ⟨l, e, r, _, hsel, _⟩ := (scanList_eq_some_iff _ _ _).mp h
  revert hsel
  cases w.elemGroup e with
  | none => simp
  | some g' =>
    simp only
    split
    · intro hg
      cases hg
      exact (memB_iff _ _).mp (by assumption)
    · simp

/-- Claim C9: a Group with no owning Container reports the fixed default
state — `isCurrent` undefined, all boolean flags false, `isVisible`
Invisible, and `isLimited` false regardless of the group's declared
focus-limit mode (the world's `groupProps` are unconstrained). -/
theorem c9_no_container_default_state (w : World) (g : Nat)
    (h : w.groupContainer g = none) :
    groupGetStateM w g =
      { isCurrent := none, isPrevious := false, isNext := false
        isFirst := false, isLast := false, isVisible := Visibility.Invisible
        hasFocus := false, siblingHasFocus := false, isLimited := false } := by
  simp [groupGetStateM, h, defaultGroupState]

theorem c9_no_container_default_state_witness :
    wA.groupContainer 99 = none ∧
      groupGetStateM wA 99 =
        { isCurrent := none, isPrevious := false, isNext := false
          isFirst := false, isLast := false, isVisible := Visibility.Invisible
          hasFocus := false, siblingHasFocus := false, isLimited := false } :=
  ⟨by decide, c9_no_container_default_state wA 99 (by decide)⟩

/-- Claim C10: the public `isInCurrentGroup(element)` returns true for any
element none of whose inclusive ancestors owns a group. -/
theorem c10_in_current_group_trivial (env : Env) (w : World) (e : Nat)
    (h : ∀ a ∈ ancestorChain env e, w.elemGroup a = none) :
    isInCurrentGroupPub env w e = true := by
  have hempty : (ancestorChain env e).filterMap
      (fun a => (w.elemGroup a).map (fun g => (a, g))) = [] := by
    rw [List.filterMap_eq_nil_iff]
    intro a ha
    rw [h a ha]
    rfl
  simp [isInCurrentGroupPub, isInCurrentGroupM, hempty]

theorem c10_in_current_group_trivial_witness :
    isInCurrentGroupPub envA wA 10 = true :=
  c10_in_current_group_trivial envA wA 10 (by decide)

/-- Claim C8: `Focusable.addGroup` raises exactly when the element already
owns a group, and `Focusable.removeGroup` on an element owning no group
returns the world unchanged (and, being a total function, never throws). -/
theorem c8_add_remove_error_contract (env : Env) (w : World) (el : Nat)
    (props : GroupProps) :
    ((w.elemGroup el).isSome = true ↔
      focusableAddGroup env w el props = Except.error ()) ∧
    (w.elemGroup el = none → focusableRemoveGroup env w el = w) := by
  constructor
  · cases h : w.elemGroup el with
    | some g => simp [focusableAddGroup, h]
    | none => simp [focusableAddGroup, h]
  · intro h
    simp [focusableRemoveGroup, h]

theorem c8_add_remove_error_contract_witness :
    focusableRemoveGroup envA wEmpty 42 = wEmpty :=
  (c8_add_remove_error_contract envA wEmpty 42
    { isLimitedProp := none, lookupVisibility := none
      memorizeCurrent := false, hasOnChange := false }).2 (by decide)

/-- Claim C6: `getGroupState(g).isLimited` holds exactly when the group's
focus-limit mode is Limited/LimitedTrapFocus and the group is not the
container's unlimited group; `setUnlimited` leaves the container untouched
for any other mode, and the instant an effective `setUnlimited(true)` makes
the group the unlimited group its reported `isLimited` becomes false. -/
theorem c6_limited_contract (w : World) (st : ContainerState) (g : Nat) (b : Bool) :
    ((getGroupStateM w st g).isLimited = true ↔
      (modeLimited (w.groupProps g) = true ∧ st.unlimited ≠ some g)) ∧
    (modeLimited (w.groupProps g) = false → groupSetUnlimitedM w st g b = st) ∧
    (modeLimited (w.groupProps g) = true →
      (getGroupStateM w (groupSetUnlimitedM w st g true) g).isLimited = false) := by
  refine ⟨?_, ?_, ?_⟩
  · by_cases hc : (w.groupProps g).isLimitedProp = some FocusLimit.Limited ∨
        (w.groupProps g).isLimitedProp = some FocusLimit.LimitedTrapFocus
    · rw [getGroupStateM_isLimited_eq, if_pos hc]
      simp [modeLimited_iff, hc]
    · rw [getGroupStateM_isLimited_eq, if_neg hc]
      simp [modeLimited_iff, hc]
  · intro h
    simp [groupSetUnlimitedM, h]
  · intro h
    have hc := (modeLimited_iff _).mp h
    simp only [groupSetUnlimitedM, h, if_true]
    rw [getGroupStateM_isLimited_eq, if_pos hc]
    by_cases he : some g = st.unlimited
    · rw [setUnlimitedGroupM, if_neg (fun hne => hne he)]
      simp [← he]
    · rw [setUnlimitedGroupM, if_pos he]
      simp

theorem c6_limited_contract_witness :
    modeLimited (wB.groupProps 1) = true ∧
      (getGroupStateM wB (groupSetUnlimitedM wB stA 1 true) 1).isLimited = false :=
  ⟨by decide, (c6_limited_contract wB stA 1 true).2.2 (by decide)⟩

/-- Claim C2 as stated is false: `removeGroup` does not null out the
container's `current` pointer — immediately after removing the current
group the pointer still references the removed, no-longer-member group. -/
theorem c2_counterexample :
    (removeGroupM envA wA (setCurrentGroupM envA wA stA 1) 1).current = some 1 ∧
      1 ∉ (removeGroupM envA wA (setCurrentGroupM envA wA stA 1) 1).groups := by
  decide

/-- Claim C2 (amended): removal immediately recomputes `first`/`last`, which
therefore never reference a non-member; the `current` pointer is only
healed lazily — `getCurrentGroup` returns a group only while it is a
member, and otherwise nulls `current` out at that read. -/
theorem c2_amended_pointer_healing (env : Env) (w : World) (st : ContainerState)
    (g : Nat) :
    ((∀ gf, (removeGroupM env w st g).first = some gf →
        gf ∈ (removeGroupM env w st g).groups) ∧
     (∀ gl, (removeGroupM env w st g).last = some gl →
        gl ∈ (removeGroupM env w st g).groups)) ∧
    (∀ st' c, (getCurrentGroupM st').1 = some c → c ∈ st'.groups) ∧
    (∀ st', (getCurrentGroupM st').1 = none → (getCurrentGroupM st').2.current = none) := by
  refine ⟨⟨?_, ?_⟩, ?_, ?_⟩
  · exact setFirstLastM_first_mem env w _
  · exact setFirstLastM_last_mem env w _
  · intro st' c h
    revert h
    simp only [getCurrentGroupM]
    cases hc : st'.current with
    | none => simp
    | some c' =>
      by_cases hm : memB c' st'.groups
      · simp only [hm, if_true]
        intro h
        cases h
        exact (memB_iff _ _).mp hm
      · simp [hm]
  · intro st'
    simp only [getCurrentGroupM]
    cases hc : st'.current with
    | none => simp
    | some c' =>
      by_cases hm : memB c' st'.groups
      · simp [hm]
      · simp [hm]

theorem c2_amended_pointer_healing_witness :
    (getCurrentGroupM (removeGroupM envA wA (setCurrentGroupM envA wA stA 1) 1)).2.current
      = none :=
  (c2_amended_pointer_healing envA wA stA 1).2.2 _ (by decide)

/-- Claim C5 (amended): with layering honoured, a candidate under an
enclosing layer whose tracked current layer id is present and differs from
the layer's id, the layer not being always-accessible, has its whole
subtree rejected — in the scenario `findFirst` returns nothing although a
focusable node exists beneath the layer, and returns that node once the
layer is marked always-accessible; a candidate with no resolvable layer
information is classified exactly as when layering is ignored (the
skip-one-node fallback branch is unreachable). -/
theorem c5_layer_classification :
    (∀ env w accept ig e li c, env.layerFor e = some li →
        li.currentLayerId = some c → c ≠ li.userId → li.alwaysAccessible = false →
        acceptElementM env w accept false ig e = WalkFilter.reject) ∧
    (∀ env w accept ig e, env.layerFor e = none →
        acceptElementM env w accept false ig e = acceptElementM env w accept true ig e) ∧
    (findFirstM envL wEmpty 0 false false false = none ∧
     isFocusableM envL 2 false false = true ∧
     findFirstM envLA wEmpty 0 false false false = some 2) := by
  refine ⟨?_, ?_, by decide⟩
  · intro env w accept ig e li c h1 h2 h3 h4
    simp [acceptElementM, h1, h2, h3, h4]
  · intro env w accept ig e h
    simp [acceptElementM, h]

theorem c5_layer_classification_witness :
    acceptElementM envL wEmpty (fun el => isFocusableM envL el false false)
      false false 1 = WalkFilter.reject :=
  c5_layer_classification.1 envL wEmpty _ false 1 ⟨5, false, some 7⟩ 7
    (by decide) (by decide) (by decide) (by decide)

/-- Claim C5 as stated is false: a candidate for which no layer information
is resolvable at all is not merely "skipped as a single node" — the
classification proceeds to the group and accept checks, and here the
candidate is accepted. -/
theorem c5_counterexample :
    envNL.layerFor 1 = none ∧
      acceptElementM envNL wEmpty (fun el => isFocusableM envNL el false false)
        false false 1 = WalkFilter.accept := by
  decide

theorem scanList_reverse_eq_some_iff (sel : Nat → Option Nat) (es : List Nat) (g : Nat) :
    scanList sel es.reverse = some g ↔
      ∃ l e r, es = l ++ e :: r ∧ sel e = some g ∧ ∀ x ∈ r, sel x = none := by
  rw [scanList_eq_some_iff]
  constructor
  · rintro ⟨l, e, r, hsplit, hsel, hnone⟩
    refine ⟨r.reverse, e, l.reverse, ?_, hsel, ?_⟩
    · have h2 := congrArg List.reverse hsplit
      simpa using h2
    · intro x hx
      exact hnone x (by simpa using hx)
  · rintro ⟨l, e, r, hsplit, hsel, hnone⟩
    refine ⟨r.reverse, e, l.reverse, by simp [hsplit], hsel, ?_⟩
    intro x hx
    exact hnone x (by simpa using hx)

theorem scanList_reverse_eq_none_iff (sel : Nat → Option Nat) (es : List Nat) :
    scanList sel es.reverse = none ↔ ∀ e ∈ es, sel e = none := by
  rw [scanList_eq_none_iff]
  constructor
  · intro h e he
    exact h e (by simpa using he)
  · intro h e he
    exact h e (by simpa using he)

theorem takeWhile_dropWhile_split (ce : Nat) :
    ∀ (l r : List Nat), ce ∉ l →
      ((l ++ ce :: r).takeWhile (fun e => e ≠ ce) = l ∧
       ((l ++ ce :: r).dropWhile (fun e => e ≠ ce)).tail = r) := by
  intro l
  induction l with
  | nil =>
    intro r _
    constructor
    · simp [List.takeWhile_cons]
    · simp [List.dropWhile_cons]
  | cons x xs ih =>
    intro r hce
    have hx : x ≠ ce := fun h => hce (by simp [h])
    have hxs : ce ∉ xs := fun h => hce (by simp [h])
    obtain ⟨h1, h2⟩ := ih r hxs
    constructor
    · simpa [List.takeWhile_cons, hx] using h1
    · simpa [List.dropWhile_cons, hx] using h2

/-- Claim C1: after `setCurrentGroup(g)` the container's `current` pointer
equals `g` exactly when `g` is a present member and is `undefined`
otherwise; `prev`/`next` are the nearest flanking siblings of the current
group's element among the sibling elements owning a group (`undefined`
when no such sibling exists), and both are `undefined` whenever `current`
is `undefined` or its element is not a direct child of the container's
element. -/
theorem c1_set_current_group (env : Env) (w : World) (st : ContainerState) (g : Nat) :
    ((g ∈ st.groups → (setCurrentGroupM env w st g).current = some g) ∧
     (g ∉ st.groups → (setCurrentGroupM env w st g).current = none)) ∧
    ((setCurrentGroupM env w st g).current = none →
      (setCurrentGroupM env w st g).prev = none ∧
      (setCurrentGroupM env w st g).next = none) ∧
    (∀ c, (setCurrentGroupM env w st g).current = some c →
      w.groupElem c ∉ childIds env st.element →
      (setCurrentGroupM env w st g).prev = none ∧
      (setCurrentGroupM env w st g).next = none) ∧
    (∀ c l r, (setCurrentGroupM env w st g).current = some c →
      childIds env st.element = l ++ w.groupElem c :: r → w.groupElem c ∉ l →
      (((setCurrentGroupM env w st g).prev = none ↔ ∀ x ∈ l, w.elemGroup x = none) ∧
       (∀ p, (setCurrentGroupM env w st g).prev = some p ↔
          ∃ l1 pe l2, l = l1 ++ pe :: l2 ∧ w.elemGroup pe = some p ∧
            ∀ x ∈ l2, w.elemGroup x = none) ∧
       ((setCurrentGroupM env w st g).next = none ↔ ∀ x ∈ r, w.elemGroup x = none) ∧
       (∀ n, (setCurrentGroupM env w st g).next = some n ↔
          ∃ r1 ne r2, r = r1 ++ ne :: r2 ∧ w.elemGroup ne = some n ∧
            ∀ x ∈ r1, w.elemGroup x = none))) := by
  by_cases hm : memB g st.groups = true
  · have hg : g ∈ st.groups := (memB_iff _ _).mp hm
    have hcur : (setCurrentGroupM env w st g).current = some g := by
      simp only [setCurrentGroupM, hm, if_true]
      split <;> rfl
    by_cases hce : memB (w.groupElem g) (childIds env st.element) = true
    · have hprev : (setCurrentGroupM env w st g).prev =
          scanList w.elemGroup
            ((childIds env st.element).takeWhile (fun e => e ≠ w.groupElem g)).reverse := by
        simp [setCurrentGroupM, hm, hce]
      have hnext : (setCurrentGroupM env w st g).next =
          scanList w.elemGroup
            (((childIds env st.element).dropWhile (fun e => e ≠ w.groupElem g)).tail) := by
        simp [setCurrentGroupM, hm, hce]
      refine ⟨⟨fun _ => hcur, fun h => absurd hg h⟩, ?_, ?_, ?_⟩
      · intro h
        rw [hcur] at h
        exact absurd h (by simp)
      · intro c hc hnotin
        rw [hcur] at hc
        cases hc
        exact absurd ((memB_iff _ _).mp hce) hnotin
      · intro c l r hc hsplit hl
        rw [hcur] at hc
        cases hc
        obtain ⟨htake, hdrop⟩ := takeWhile_dropWhile_split (w.groupElem g) l r hl
        rw [← hsplit] at htake hdrop
        rw [hprev, hnext, htake, hdrop]
        exact ⟨scanList_reverse_eq_none_iff _ _,
          fun p => scanList_reverse_eq_some_iff _ _ _,
          scanList_eq_none_iff _ _,
          fun n => scanList_eq_some_iff _ _ _⟩
    · have hprev : (setCurrentGroupM env w st g).prev = none := by
        simp [setCurrentGroupM, hm, hce]
      have hnext : (setCurrentGroupM env w st g).next = none := by
        simp [setCurrentGroupM, hm, hce]
      refine ⟨⟨fun _ => hcur, fun h => absurd hg h⟩, ?_, ?_, ?_⟩
      · intro _
        exact ⟨hprev, hnext⟩
      · intro _ _ _
        exact ⟨hprev, hnext⟩
      · intro c l r hc hsplit hl
        rw [hcur] at hc
        cases hc
        have : w.groupElem g ∈ childIds env st.element := by
          rw [hsplit]
          simp
        exact absurd ((memB_iff _ _).mpr this) hce
  · have hg : g ∉ st.groups := fun h => hm ((memB_iff _ _).mpr h)
    have hcur : (setCurrentGroupM env w st g).current = none := by
      simp [setCurrentGroupM, hm]
    have hprev : (setCurrentGroupM env w st g).prev = none := by
      simp [setCurrentGroupM, hm]
    have hnext : (setCurrentGroupM env w st g).next = none := by
      simp [setCurrentGroupM, hm]
    refine ⟨⟨fun h => absurd h hg, fun _ => hcur⟩, fun _ => ⟨hprev, hnext⟩, ?_, ?_⟩
    · intro c hc
      rw [hcur] at hc
      exact absurd hc (by simp)
    · intro c l r hc
      rw [hcur] at hc
      exact absurd hc (by simp)

theorem c1_set_current_group_witness :
    (setCurrentGroupM envA wA stA 2).current = some 2 ∧
      (setCurrentGroupM envA wA stA 2).prev = some 1 ∧
      (setCurrentGroupM envA wA stA 2).next = some 3 := by
  have h := c1_set_current_group envA wA stA 2
  have hcur : (setCurrentGroupM envA wA stA 2).current = some 2 := h.1.1 (by decide)
  refine ⟨hcur, ?_, ?_⟩
  · exact ((h.2.2.2 2 [11] [13] hcur (by decide) (by decide)).2.1 1).mpr
      ⟨[], 11, [], by decide, by decide, by decide⟩
  · exact ((h.2.2.2 2 [11] [13] hcur (by decide) (by decide)).2.2.2 3).mpr
      ⟨[], 13, [], by decide, by decide, by decide⟩

/-- The member-group selector used by `_setFirstLast`'s child scans. -/
theorem setFirstLast_sel_none_iff (w : World) (groups : List Nat) (e : Nat) :
    (match w.elemGroup e with
     | some g => if memB g groups then some g else none
     | none => none) = none ↔
      ∀ g', w.elemGroup e = some g' → g' ∉ groups := by
  cases h : w.elemGroup e with
  | none => simp
  | some g' =>
    dsimp only
    by_cases hm : memB g' groups = true
    · have hmem := (memB_iff g' groups).mp hm
      rw [if_pos hm]
      constructor
      · intro hx
        exact absurd hx (by simp)
      · intro hall
        exact absurd hmem (hall g' rfl)
    · have hmem : g' ∉ groups := fun h2 => hm ((memB_iff _ _).mpr h2)
      rw [if_neg hm]
      constructor
      · intro _ g'' hg
        cases hg
        exact hmem
      · intro _
        rfl

theorem setFirstLast_sel_some_iff (w : World) (groups : List Nat) (e gf : Nat) :
    (match w.elemGroup e with
     | some g => if memB g groups then some g else none
     | none => none) = some gf ↔
      (w.elemGroup e = some gf ∧ gf ∈ groups) := by
  cases h : w.elemGroup e with
  | none => simp
  | some g' =>
    dsimp only
    by_cases hm : memB g' groups = true
    · rw [if_pos hm]
      constructor
      · intro hg
        cases hg
        exact ⟨rfl, (memB_iff _ _).mp hm⟩
      · rintro ⟨hg, _⟩
        cases hg
        rfl
    · have hmem : g' ∉ groups := fun h2 => hm ((memB_iff _ _).mpr h2)
      rw [if_neg hm]
      constructor
      · intro hx
        exact absurd hx (by simp)
      · rintro ⟨hg, hmemf⟩
        cases hg
        exact absurd hmemf hmem

/-- Full characterization of `first`/`last` right after `_setFirstLast`. -/
theorem setFirstLastM_char (env : Env) (w : World) (st2 : ContainerState) :
    (((setFirstLastM env w st2).first = none ↔
        ∀ e ∈ childIds env st2.element, ∀ g', w.elemGroup e = some g' → g' ∉ st2.groups) ∧
     (∀ gf, (setFirstLastM env w st2).first = some gf ↔
        ∃ l e r, childIds env st2.element = l ++ e :: r ∧ w.elemGroup e = some gf ∧
          gf ∈ st2.groups ∧ ∀ x ∈ l, ∀ g', w.elemGroup x = some g' → g' ∉ st2.groups)) ∧
    (((setFirstLastM env w st2).last = none ↔
        ∀ e ∈ childIds env st2.element, ∀ g', w.elemGroup e = some g' → g' ∉ st2.groups) ∧
     (∀ gl, (setFirstLastM env w st2).last = some gl ↔
        ∃ l e r, childIds env st2.element = l ++ e :: r ∧ w.elemGroup e = some gl ∧
          gl ∈ st2.groups ∧ ∀ x ∈ r, ∀ g', w.elemGroup x = some g' → g' ∉ st2.groups)) := by
  have hfst : (setFirstLastM env w st2).first =
      scanList (fun e =>
        match w.elemGroup e with
        | some g => if memB g st2.groups then some g else none
        | none => none) (childIds env st2.element) := rfl
  have hlst : (setFirstLastM env w st2).last =
      scanList (fun e =>
        match w.elemGroup e with
        | some g => if memB g st2.groups then some g else none
        | none => none) (childIds env st2.element).reverse := rfl
  refine ⟨⟨?_, ?_⟩, ?_, ?_⟩
  · rw [hfst, scanList_eq_none_iff]
    exact forall₂_congr fun e _ => setFirstLast_sel_none_iff w st2.groups e
  · intro gf
    rw [hfst, scanList_eq_some_iff]
    constructor
    · rintro ⟨l, e, r, hsplit, hsel, hnone⟩
      obtain ⟨h1, h2⟩ := (setFirstLast_sel_some_iff w st2.groups e gf).mp hsel
      exact ⟨l, e, r, hsplit, h1, h2, fun x hx =>
        (setFirstLast_sel_none_iff w st2.groups x).mp (hnone x hx)⟩
    · rintro ⟨l, e, r, hsplit, h1, h2, hnone⟩
      exact ⟨l, e, r, hsplit, (setFirstLast_sel_some_iff w st2.groups e gf).mpr ⟨h1, h2⟩,
        fun x hx => (setFirstLast_sel_none_iff w st2.groups x).mpr (hnone x hx)⟩
  · rw [hlst, scanList_reverse_eq_none_iff]
    exact forall₂_congr fun e _ => setFirstLast_sel_none_iff w st2.groups e
  · intro gl
    rw [hlst, scanList_reverse_eq_some_iff]
    constructor
    · rintro ⟨l, e, r, hsplit, hsel, hnone⟩
      obtain ⟨h1, h2⟩ := (setFirstLast_sel_some_iff w st2.groups e gl).mp hsel
      exact ⟨l, e, r, hsplit, h1, h2, fun x hx =>
        (setFirstLast_sel_none_iff w st2.groups x).mp (hnone x hx)⟩
    · rintro ⟨l, e, r, hsplit, h1, h2, hnone⟩
      exact ⟨l, e, r, hsplit, (setFirstLast_sel_some_iff w st2.groups e gl).mpr ⟨h1, h2⟩,
        fun x hx => (setFirstLast_sel_none_iff w st2.groups x).mpr (hnone x hx)⟩

theorem applyCOp_is_setFirstLast (env : Env) (w : World) (st : ContainerState)
    (op : COp) :
    ∃ st2, applyCOp env w st op = setFirstLastM env w st2 ∧
      st2.element = st.element ∧
      st2.groups = (applyCOp env w st op).groups := by
  cases op with
  | add g => exact ⟨_, rfl, rfl, rfl⟩
  | remove g => exact ⟨_, rfl, rfl, rfl⟩

theorem applyCOp_element (env : Env) (w : World) (st : ContainerState) (op : COp) :
    (applyCOp env w st op).element = st.element := by
  cases op with
  | add g => rfl
  | remove g => rfl

theorem foldl_applyCOp_element (env : Env) (w : World) (st : ContainerState)
    (ops : List COp) :
    (ops.foldl (applyCOp env w) st).element = st.element := by
  induction ops generalizing st with
  | nil => rfl
  | cons op ops ih => rw [List.foldl_cons, ih, applyCOp_element]

/-- Claim C3: after any nonempty sequence of container `addGroup` /
`removeGroup` calls, `first` is exactly the group owned by the first direct
child element that owns a member group (`undefined` when there is none),
`last` symmetrically from the end; in particular neither ever references a
non-member (removed) group. -/
theorem c3_first_last_after_ops (env : Env) (w : World) (st : ContainerState)
    (ops : List COp) (hne : ops ≠ []) :
    (((ops.foldl (applyCOp env w) st).first = none ↔
        ∀ e ∈ childIds env st.element, ∀ g', w.elemGroup e = some g' →
          g' ∉ (ops.foldl (applyCOp env w) st).groups) ∧
     (∀ gf, (ops.foldl (applyCOp env w) st).first = some gf ↔
        ∃ l e r, childIds env st.element = l ++ e :: r ∧ w.elemGroup e = some gf ∧
          gf ∈ (ops.foldl (applyCOp env w) st).groups ∧
          ∀ x ∈ l, ∀ g', w.elemGroup x = some g' →
            g' ∉ (ops.foldl (applyCOp env w) st).groups)) ∧
    (((ops.foldl (applyCOp env w) st).last = none ↔
        ∀ e ∈ childIds env st.element, ∀ g', w.elemGroup e = some g' →
          g' ∉ (ops.foldl (applyCOp env w) st).groups) ∧
     (∀ gl, (ops.foldl (applyCOp env w) st).last = some gl ↔
        ∃ l e r, childIds env st.element = l ++ e :: r ∧ w.elemGroup e = some gl ∧
          gl ∈ (ops.foldl (applyCOp env w) st).groups ∧
          ∀ x ∈ r, ∀ g', w.elemGroup x = some g' →
            g' ∉ (ops.foldl (applyCOp env w) st).groups)) := by
  rcases List.eq_nil_or_concat ops with h | ⟨front, op, h⟩
  · exact absurd h hne
  subst h
  rw [List.concat_eq_append, List.foldl_append, List.foldl_cons, List.foldl_nil]
  obtain ⟨st2, heq, helem, hgroups⟩ :=
    applyCOp_is_setFirstLast env w (front.foldl (applyCOp env w) st) op
  rw [heq]
  have helem2 : st2.element = st.element := by
    rw [helem, foldl_applyCOp_element]
  have hch := setFirstLastM_char env w st2
  rw [helem2] at hch
  exact hch

theorem c3_first_last_after_ops_witness :
    ([COp.add 1, COp.add 2, COp.add 3, COp.remove 1].foldl (applyCOp envA wA)
        (initialContainer 10)).first = some 2 ∧
      ([COp.add 1, COp.add 2, COp.add 3, COp.remove 1].foldl (applyCOp envA wA)
        (initialContainer 10)).last = some 3 := by
  have h := c3_first_last_after_ops envA wA (initialContainer 10)
    [COp.add 1, COp.add 2, COp.add 3, COp.remove 1] (by simp)
  exact ⟨(h.1.2 2).mpr ⟨[11], 12, [13], by decide, by decide, by decide, by decide⟩,
    (h.2.2 3).mpr ⟨[11, 12], 13, [], by decide, by decide, by decide, by decide⟩⟩

theorem tickFocusedStep_groups (w : World) (p : ContainerState × List (Option Nat)) :
    (tickFocusedStep w p).1.groups = p.1.groups := by
  rcases p with ⟨st, ch⟩
  simp only [tickFocusedStep]
  split
  · split <;> rfl
  · rfl

theorem tickCurrentStep_groups (p : ContainerState × List (Option Nat)) :
    (tickCurrentStep p).1.groups = p.1.groups := by
  rcases p with ⟨st, ch⟩
  simp only [tickCurrentStep]
  split <;> rfl

theorem tickPrevStep_groups (p : ContainerState × List (Option Nat)) :
    (tickPrevStep p).1.groups = p.1.groups := by
  rcases p with ⟨st, ch⟩
  simp only [tickPrevStep]
  split <;> rfl

theorem tickNextStep_groups (p : ContainerState × List (Option Nat)) :
    (tickNextStep p).1.groups = p.1.groups := by
  rcases p with ⟨st, ch⟩
  simp only [tickNextStep]
  split <;> rfl

theorem tickFirstStep_groups (p : ContainerState × List (Option Nat)) :
    (tickFirstStep p).1.groups = p.1.groups := by
  rcases p with ⟨st, ch⟩
  simp only [tickFirstStep]
  split <;> rfl

theorem tickLastStep_groups (p : ContainerState × List (Option Nat)) :
    (tickLastStep p).1.groups = p.1.groups := by
  rcases p with ⟨st, ch⟩
  simp only [tickLastStep]
  split <;> rfl

theorem tickUnlimitedStep_groups (p : ContainerState × List (Option Nat)) :
    (tickUnlimitedStep p).1.groups = p.1.groups := by
  rcases p with ⟨st, ch⟩
  simp only [tickUnlimitedStep]
  split <;> rfl

theorem tickVisibleStep_groups (p : ContainerState × List (Option Nat)) :
    (tickVisibleStep p).1.groups = p.1.groups := by
  rcases p with ⟨st, ch⟩
  simp only [tickVisibleStep]
  split <;> rfl

theorem processOnChangeTick_groups (w : World) (st : ContainerState) :
    (processOnChangeTick w st).1.groups = st.groups := by
  have h : (processOnChangeTick w st).1 =
      (tickVisibleStep (tickUnlimitedStep (tickLastStep (tickFirstStep
        (tickNextStep (tickPrevStep (tickCurrentStep (tickFocusedStep w (st, []))))))))).1 := rfl
  rw [h, tickVisibleStep_groups, tickUnlimitedStep_groups, tickLastStep_groups,
    tickFirstStep_groups, tickNextStep_groups, tickPrevStep_groups,
    tickCurrentStep_groups, tickFocusedStep_groups]

theorem fired_nodup_mem (w : World) (p : ContainerState × List (Option Nat)) :
    ((dedupKeepFirst (p.2.filterMap (fun c =>
      match c with
      | some g => if memB g p.1.groups then some g else none
      | none => none))).filter (fun g => (w.groupProps g).hasOnChange)).Nodup ∧
    ∀ g ∈ (dedupKeepFirst (p.2.filterMap (fun c =>
      match c with
      | some g => if memB g p.1.groups then some g else none
      | none => none))).filter (fun g => (w.groupProps g).hasOnChange),
      g ∈ p.1.groups := by
  constructor
  · exact (nodup_dedupKeepFirst _).filter _
  · intro g hg
    have h1 := (List.mem_filter.mp hg).1
    have h2 := (mem_dedupKeepFirst _ _).mp h1
    obtain ⟨c, hc, heq⟩ := List.mem_filterMap.mp h2
    cases c with
    | none => exact absurd heq (by simp)
    | some g' =>
      revert heq
      dsimp only
      split
      · intro heq
        cases heq
        exact (memB_iff _ _).mp (by assumption)
      · intro heq
        exact absurd heq (by simp)

/-- Claim C4 (amended): in one settle pass each group's `onChange` callback
fires at most once, however many distinct pointer or visibility diffs
flagged it, and only groups presently in the membership set are invoked —
a group that is no longer a member receives no callback even when a stale
previous-snapshot pointer still references it.  However, a group whose
observable state changed only as a side effect of the current pointer
moving among other groups may receive no callback at all in that pass (see
the counterexample). -/
theorem c4_tick_at_most_once (w : World) (st : ContainerState) :
    (processOnChangeTick w st).2.Nodup ∧
      ∀ g ∈ (processOnChangeTick w st).2, g ∈ st.groups := by
  constructor
  · exact (fired_nodup_mem w (tickVisibleStep (tickUnlimitedStep (tickLastStep
      (tickFirstStep (tickNextStep (tickPrevStep (tickCurrentStep
        (tickFocusedStep w (st, [])))))))))).1
  · intro g hg
    have h2mem : g ∈ (processOnChangeTick w st).1.groups :=
      (fired_nodup_mem w (tickVisibleStep (tickUnlimitedStep (tickLastStep
        (tickFirstStep (tickNextStep (tickPrevStep (tickCurrentStep
          (tickFocusedStep w (st, [])))))))))).2 g hg
    rw [processOnChangeTick_groups w st] at h2mem
    exact h2mem

theorem c4_tick_at_most_once_witness :
    (processOnChangeTick wA stAc).2.Nodup ∧ 1 ∈ stAc.groups :=
  ⟨(c4_tick_at_most_once wA stAc).1,
    (c4_tick_at_most_once wA stAc).2 1 (by decide)⟩

/-- Claim C4 as stated is false: between the first settle tick and the
second, group 3's observable state changed (its `isCurrent` flipped from
undefined to false when group 1 became current), it has a registered
callback and is still a member, yet the second tick does not invoke it. -/
theorem c4_counterexample :
    getGroupStateM wA stAt1 3 ≠ getGroupStateM wA stAc 3 ∧
      (wA.groupProps 3).hasOnChange = true ∧
      3 ∈ stAc.groups ∧
      3 ∉ (processOnChangeTick wA stAc).2 := by
  decide

theorem fuAgree_refl (st : ContainerState) : fuAgree st st := by
  unfold fuAgree
  exact ⟨rfl, rfl, rfl, rfl, rfl, rfl, rfl, rfl, rfl, rfl, rfl, rfl, rfl, rfl,
    rfl, rfl, rfl, rfl⟩

theorem fuVariant_refl (w : World) : fuVariant w w := by
  refine ⟨rfl, rfl, rfl, rfl, rfl, rfl, ?_⟩
  intro ce
  cases w.containerStates ce with
  | none => trivial
  | some st => exact fuAgree_refl st

theorem fuAgree_setFocusedGroupM (st st' : ContainerState) (x : Option Nat)
    (h : fuAgree st st') : fuAgree st (setFocusedGroupM st' x) := by
  unfold setFocusedGroupM
  split
  · exact h
  · exact h

theorem fuAgree_setUnlimitedGroupM (st st' : ContainerState) (x : Option Nat)
    (h : fuAgree st st') : fuAgree st (setUnlimitedGroupM st' x) := by
  unfold setUnlimitedGroupM
  split
  · exact h
  · exact h

theorem fuVariant_worldUpdateContainer (w w' : World) (ce : Nat)
    (f : ContainerState → ContainerState)
    (hf : ∀ st st', fuAgree st st' → fuAgree st (f st'))
    (h : fuVariant w w') : fuVariant w (worldUpdateContainer w' ce f) := by
  obtain ⟨h1, h2, h3, h4, h5, h6, h7⟩ := h
  refine ⟨h1, h2, h3, h4, h5, h6, ?_⟩
  intro ce2
  have hc := h7 ce2
  unfold worldUpdateContainer
  dsimp only
  by_cases hceq : ce2 = ce
  · subst hceq
    rw [if_pos rfl]
    revert hc
    cases w.containerStates ce2 with
    | none =>
      cases w'.containerStates ce2 with
      | none => intro _; trivial
      | some st' => intro hc; exact hc.elim
    | some st =>
      cases w'.containerStates ce2 with
      | none => intro hc; exact hc.elim
      | some st' =>
        intro hc
        exact hf st st' hc
  · rw [if_neg hceq]
    exact hc

theorem fuVariant_groupSetFocusedW (w w' : World) (g : Nat) (b : Bool)
    (h : fuVariant w w') : fuVariant w (groupSetFocusedW w' g b) := by
  unfold groupSetFocusedW
  cases w'.groupContainer g with
  | none => exact h
  | some ce =>
    exact fuVariant_worldUpdateContainer w w' ce _
      (fun st st' ha => fuAgree_setFocusedGroupM st st' _ ha) h

theorem fuVariant_groupSetUnlimitedW (w w' : World) (g : Nat) (b : Bool)
    (h : fuVariant w w') : fuVariant w (groupSetUnlimitedW w' g b) := by
  unfold groupSetUnlimitedW
  split
  · cases w'.groupContainer g with
    | none => exact h
    | some ce =>
      exact fuVariant_worldUpdateContainer w w' ce _
        (fun st st' ha => fuAgree_setUnlimitedGroupM st st' _ ha) h
  · exact h

theorem modeLimited_false_not (p : GroupProps) (h : modeLimited p = false) :
    ¬(p.isLimitedProp = some FocusLimit.Limited ∨
      p.isLimitedProp = some FocusLimit.LimitedTrapFocus) := by
  intro hor
  rw [(modeLimited_iff p).mpr hor] at h
  exact absurd h (by simp)

theorem getGroupStateM_isCurrent_def (w : World) (st : ContainerState) (g : Nat) :
    (getGroupStateM w st g).isCurrent =
      (let isVisible := (lookupK st.visibleGroups g).getD Visibility.Invisible
       let ic : Option Bool :=
         match st.current with
         | some c => some (decide (c = g))
         | none => none
       if ic = none ∧ (w.groupProps g).lookupVisibility ≠ some Visibility.Invisible then
         if isVisible = Visibility.Invisible ∨
             (st.hasFullyVisibleGroup ∧ isVisible = Visibility.PartiallyVisible) then
           some false
         else ic
       else ic) := rfl

theorem getGroupStateM_isCurrent_congr (w w' : World) (st st' : ContainerState)
    (g : Nat) (hp : w'.groupProps = w.groupProps) (ha : fuAgree st st') :
    (getGroupStateM w' st' g).isCurrent = (getGroupStateM w st g).isCurrent := by
  obtain ⟨_, _, hcur, _, _, _, _, hvis, hfull, _⟩ := ha
  rw [getGroupStateM_isCurrent_def, getGroupStateM_isCurrent_def, hp, hcur, hvis, hfull]

theorem groupGetStateM_isCurrent_congr (w w' : World) (g : Nat)
    (h : fuVariant w w') :
    (groupGetStateM w' g).isCurrent = (groupGetStateM w g).isCurrent := by
  obtain ⟨h1, h2, h3, h4, h5, h6, h7⟩ := h
  unfold groupGetStateM
  rw [h4]
  cases w.groupContainer g with
  | none => rfl
  | some ce =>
    dsimp only
    have hc := h7 ce
    revert hc
    cases w.containerStates ce with
    | none =>
      cases w'.containerStates ce with
      | none => intro _; rfl
      | some st' => intro hc; exact hc.elim
    | some st =>
      cases w'.containerStates ce with
      | none => intro hc; exact hc.elim
      | some st' =>
        intro hc
        exact getGroupStateM_isCurrent_congr w w' st st' g h3 hc

theorem groupGetStateM_isLimited_false (w : World) (g : Nat)
    (hnl : modeLimited (w.groupProps g) = false) :
    (groupGetStateM w g).isLimited = false := by
  unfold groupGetStateM
  cases w.groupContainer g with
  | none => rfl
  | some ce =>
    dsimp only
    cases w.containerStates ce with
    | none => rfl
    | some st =>
      dsimp only
      rw [getGroupStateM_isLimited_eq, if_neg (modeLimited_false_not _ hnl)]

theorem list_all_congr {α : Type} (l : List α) (f h : α → Bool)
    (H : ∀ a ∈ l, f a = h a) : l.all f = l.all h := by
  induction l with
  | nil => rfl
  | cons a as ih =>
    simp only [List.all_cons]
    rw [H a (List.mem_cons_self _ _), ih (fun b hb => H b (List.mem_cons_of_mem _ hb))]

theorem isInCurrentGroupM_congr (env : Env) (w w' : World) (e : Nat) (u : Bool)
    (h : fuVariant w w') (hnl : ∀ g, modeLimited (w.groupProps g) = false) :
    isInCurrentGroupM env w' e u = isInCurrentGroupM env w e u := by
  have h1 : w'.elemGroup = w.elemGroup := h.1
  have h3 : w'.groupProps = w.groupProps := h.2.2.1
  unfold isInCurrentGroupM
  rw [h1]
  cases hits : (ancestorChain env e).filterMap
      (fun a => (w.elemGroup a).map (fun g => (a, g))) with
  | nil => rfl
  | cons p0 rest =>
    rcases p0 with ⟨ge0, g0⟩
    dsimp only
    apply list_all_congr
    intro p _
    have hic := groupGetStateM_isCurrent_congr w w' p.2 h
    have hl1 : (groupGetStateM w' p.2).isLimited = false := by
      have := hnl p.2
      rw [← h3] at this
      exact groupGetStateM_isLimited_false w' p.2 this
    have hl2 : (groupGetStateM w p.2).isLimited = false :=
      groupGetStateM_isLimited_false w p.2 (hnl p.2)
    rw [hic, hl1, hl2]

theorem acceptElementM_congr (env : Env) (w w' : World) (accept : Nat → Bool)
    (il ig : Bool) (e : Nat) (h : fuVariant w w')
    (hnl : ∀ g, modeLimited (w.groupProps g) = false) :
    acceptElementM env w' accept il ig e = acceptElementM env w accept il ig e := by
  unfold acceptElementM
  rw [isInCurrentGroupM_congr env w w' e true h hnl]

theorem findFirstM_congr (env : Env) (w w' : World) (context : Nat)
    (ip il ig : Bool) (h : fuVariant w w')
    (hnl : ∀ g, modeLimited (w.groupProps g) = false) :
    findFirstM env w' context ip il ig = findFirstM env w context ip il ig := by
  unfold findFirstM
  cases findSubtreeT context env.dom with
  | none => rfl
  | some t =>
    dsimp only
    congr 1
    funext el
    exact acceptElementM_congr env w w' _ il ig el h hnl

theorem getGroupFirstM_congr (env : Env) (w w' : World) (ge : Nat) (ig : Bool)
    (h : fuVariant w w') (hnl : ∀ g, modeLimited (w.groupProps g) = false) :
    getGroupFirstM env w' ge ig = getGroupFirstM env w ge ig := by
  unfold getGroupFirstM
  rw [findFirstM_congr env w w' ge false false ig h hnl]

theorem processRemovals_trace (l : List Nat) : ∀ w : World,
    (processRemovals w l).2 =
      l.flatMap (fun g => [FAction.focusedCall g false, FAction.unlimitedCall g false]) := by
  induction l with
  | nil => intro w; rfl
  | cons g rest ih =>
    intro w
    simp only [processRemovals, List.flatMap_cons]
    rw [ih]
    rfl

theorem processRemovals_fuVariant (l : List Nat) : ∀ w w0 : World,
    fuVariant w0 w → fuVariant w0 (processRemovals w l).1 := by
  induction l with
  | nil => intro w w0 h; exact h
  | cons g rest ih =>
    intro w w0 h
    exact ih _ w0 (fuVariant_groupSetUnlimitedW w0 _ g false
      (fuVariant_groupSetFocusedW w0 _ g false h))

theorem processAdditions_spec (env : Env) (el : Nat) (l : List Nat) :
    ∀ w w0 : World, fuVariant w0 w →
      (∀ g ∈ l, ∀ w', fuVariant w0 w' →
        getGroupFirstM env w' (w0.groupElem g) false =
          getGroupFirstM env w0 (w0.groupElem g) false) →
      (fuVariant w0 (processAdditions env el w l).1 ∧
       (processAdditions env el w l).2 =
         l.flatMap (fun g =>
           if getGroupFirstM env w0 (w0.groupElem g) false ≠ some el then
             [FAction.focusedCall g true, FAction.unlimitedCall g true]
           else [FAction.focusedCall g true])) := by
  induction l with
  | nil => intro w w0 h _; exact ⟨h, rfl⟩
  | cons g rest ih =>
    intro w w0 h hst
    have hge : w.groupElem g = w0.groupElem g := congrFun h.2.1 g
    have h1 : fuVariant w0 (groupSetFocusedW w g true) :=
      fuVariant_groupSetFocusedW w0 w g true h
    have hcond : getGroupFirstM env (groupSetFocusedW w g true) (w.groupElem g) false =
        getGroupFirstM env w0 (w0.groupElem g) false := by
      rw [hge]
      exact hst g (List.mem_cons_self _ _) _ h1
    simp only [processAdditions]
    rw [hcond]
    by_cases hc : getGroupFirstM env w0 (w0.groupElem g) false ≠ some el
    · rw [if_pos hc]
      dsimp only
      have h2 : fuVariant w0 (groupSetUnlimitedW (groupSetFocusedW w g true) g true) :=
        fuVariant_groupSetUnlimitedW w0 _ g true h1
      have hrest := ih _ w0 h2 (fun g' hg' => hst g' (List.mem_cons_of_mem _ hg'))
      refine ⟨hrest.1, ?_⟩
      rw [hrest.2, List.flatMap_cons, if_pos hc]
    · rw [if_neg hc]
      dsimp only
      have hrest := ih _ w0 h1 (fun g' hg' => hst g' (List.mem_cons_of_mem _ hg'))
      refine ⟨hrest.1, ?_⟩
      rw [hrest.2, List.flatMap_cons, if_neg hc]

theorem mem_clear_trace (l : List Nat) (a : FAction) :
    a ∈ l.flatMap (fun g => [FAction.focusedCall g false, FAction.unlimitedCall g false]) ↔
      ∃ g ∈ l, (a = FAction.focusedCall g false ∨ a = FAction.unlimitedCall g false) := by
  simp [List.mem_flatMap]

theorem mem_add_trace (P : Nat → Prop) [DecidablePred P] (l : List Nat) (a : FAction) :
    a ∈ l.flatMap (fun g =>
        if P g then [FAction.focusedCall g true, FAction.unlimitedCall g true]
        else [FAction.focusedCall g true]) ↔
      ∃ g ∈ l, (a = FAction.focusedCall g true ∨ (P g ∧ a = FAction.unlimitedCall g true)) := by
  rw [List.mem_flatMap]
  constructor
  · rintro ⟨g, hg, hmem⟩
    refine ⟨g, hg, ?_⟩
    by_cases hp : P g
    · rw [if_pos hp] at hmem
      rcases List.mem_cons.mp hmem with h | h
      · exact Or.inl h
      · rcases List.mem_cons.mp h with h2 | h2
        · exact Or.inr ⟨hp, h2⟩
        · exact absurd h2 (List.not_mem_nil _)
    · rw [if_neg hp] at hmem
      rcases List.mem_cons.mp hmem with h | h
      · exact Or.inl h
      · exact absurd h (List.not_mem_nil _)
  · rintro ⟨g, hg, h | ⟨hp, h⟩⟩
    · subst h
      refine ⟨g, hg, ?_⟩
      by_cases hp : P g
      · rw [if_pos hp]
        exact List.mem_cons_self _ _
      · rw [if_neg hp]
        exact List.mem_cons_self _ _
    · subst h
      refine ⟨g, hg, ?_⟩
      rw [if_pos hp]
      exact List.mem_cons_of_mem _ (List.mem_cons_self _ _)

/-- Claim C7: on a global focus change to an element, every group of the
previous chain that is not in the new chain gets its focused and unlimited
flags cleared; every group newly in the chain gets its focused flag set and
its unlimited flag set exactly when the focused element is not the group's
designated first-focusable entry point; afterwards the tracked
focused-group set equals the new chain; and a focus change to nothing has
no effect.  The hypothesis states that the designated entry point of each
chain group is well defined during the pass: `_getGroupFirst` is
insensitive to the focused/unlimited pointer updates the pass itself makes
(it holds, e.g., whenever no group has a Limited mode, see the witness). -/
theorem c7_focus_change (env : Env) (w : World) (el : Nat)
    (hst : ∀ g ∈ newFocusedChain env w el, ∀ w', fuVariant w w' →
      getGroupFirstM env w' (w.groupElem g) false =
        getGroupFirstM env w (w.groupElem g) false) :
    (onFocusM env w none = (w, [])) ∧
    ((onFocusM env w (some el)).1.focusedGroups = newFocusedChain env w el) ∧
    (∀ g, FAction.focusedCall g false ∈ (onFocusM env w (some el)).2 ↔
      (g ∈ w.focusedGroups ∧ g ∉ newFocusedChain env w el)) ∧
    (∀ g, FAction.unlimitedCall g false ∈ (onFocusM env w (some el)).2 ↔
      (g ∈ w.focusedGroups ∧ g ∉ newFocusedChain env w el)) ∧
    (∀ g, FAction.focusedCall g true ∈ (onFocusM env w (some el)).2 ↔
      (g ∈ newFocusedChain env w el ∧ g ∉ w.focusedGroups)) ∧
    (∀ g, FAction.unlimitedCall g true ∈ (onFocusM env w (some el)).2 ↔
      (g ∈ newFocusedChain env w el ∧ g ∉ w.focusedGroups ∧
       getGroupFirstM env w (w.groupElem g) false ≠ some el)) := by
  have hmem_removed : ∀ g : Nat,
      g ∈ w.focusedGroups.filter (fun g => !memB g (newFocusedChain env w el)) ↔
        (g ∈ w.focusedGroups ∧ g ∉ newFocusedChain env w el) := by
    intro g
    rw [List.mem_filter]
    constructor
    · rintro ⟨h1, h2⟩
      refine ⟨h1, fun hmem => ?_⟩
      rw [(memB_iff _ _).mpr hmem] at h2
      exact absurd h2 (by simp)
    · rintro ⟨h1, h2⟩
      refine ⟨h1, ?_⟩
      cases hmb : memB g (newFocusedChain env w el) with
      | false => rfl
      | true => exact absurd ((memB_iff _ _).mp hmb) h2
  have hmem_added : ∀ g : Nat,
      g ∈ (newFocusedChain env w el).filter (fun g => !memB g w.focusedGroups) ↔
        (g ∈ newFocusedChain env w el ∧ g ∉ w.focusedGroups) := by
    intro g
    rw [List.mem_filter]
    constructor
    · rintro ⟨h1, h2⟩
      refine ⟨h1, fun hmem => ?_⟩
      rw [(memB_iff _ _).mpr hmem] at h2
      exact absurd h2 (by simp)
    · rintro ⟨h1, h2⟩
      refine ⟨h1, ?_⟩
      cases hmb : memB g w.focusedGroups with
      | false => rfl
      | true => exact absurd ((memB_iff _ _).mp hmb) h2
  have hr1fu : fuVariant w
      (processRemovals w
        (w.focusedGroups.filter (fun g => !memB g (newFocusedChain env w el)))).1 :=
    processRemovals_fuVariant _ w w (fuVariant_refl w)
  have hadds := processAdditions_spec env el
    ((newFocusedChain env w el).filter (fun g => !memB g w.focusedGroups))
    (processRemovals w
      (w.focusedGroups.filter (fun g => !memB g (newFocusedChain env w el)))).1
    w hr1fu
    (fun g hg => hst g ((hmem_added g).mp hg).1)
  have htrace : (onFocusM env w (some el)).2 =
      (w.focusedGroups.filter (fun g => !memB g (newFocusedChain env w el))).flatMap
        (fun g => [FAction.focusedCall g false, FAction.unlimitedCall g false]) ++
      ((newFocusedChain env w el).filter (fun g => !memB g w.focusedGroups)).flatMap
        (fun g =>
          if getGroupFirstM env w (w.groupElem g) false ≠ some el then
            [FAction.focusedCall g true, FAction.unlimitedCall g true]
          else [FAction.focusedCall g true]) := by
    have h0 : (onFocusM env w (some el)).2 =
        (processRemovals w
          (w.focusedGroups.filter (fun g => !memB g (newFocusedChain env w el)))).2 ++
        (processAdditions env el
          (processRemovals w
            (w.focusedGroups.filter (fun g => !memB g (newFocusedChain env w el)))).1
          ((newFocusedChain env w el).filter (fun g => !memB g w.focusedGroups))).2 := rfl
    rw [h0, processRemovals_trace, hadds.2]
  refine ⟨rfl, rfl, ?_, ?_, ?_, ?_⟩
  · intro g
    rw [htrace, List.mem_append, mem_clear_trace,
      mem_add_trace (fun g => getGroupFirstM env w (w.groupElem g) false ≠ some el)]
    rw [← hmem_removed]
    constructor
    · rintro (⟨g', hg', h | h⟩ | ⟨g', hg', h | ⟨_, h⟩⟩)
      · injection h with h1 h2
        subst h1
        exact hg'
      · exact absurd h (by simp)
      · exact absurd h (by simp)
      · exact absurd h (by simp)
    · intro hg
      exact Or.inl ⟨g, hg, Or.inl rfl⟩
  · intro g
    rw [htrace, List.mem_append, mem_clear_trace,
      mem_add_trace (fun g => getGroupFirstM env w (w.groupElem g) false ≠ some el)]
    rw [← hmem_removed]
    constructor
    · rintro (⟨g', hg', h | h⟩ | ⟨g', hg', h | ⟨_, h⟩⟩)
      · exact absurd h (by simp)
      · injection h with h1 h2
        subst h1
        exact hg'
      · exact absurd h (by simp)
      · exact absurd h (by simp)
    · intro hg
      exact Or.inl ⟨g, hg, Or.inr rfl⟩
  · intro g
    rw [htrace, List.mem_append, mem_clear_trace,
      mem_add_trace (fun g => getGroupFirstM env w (w.groupElem g) false ≠ some el)]
    rw [← hmem_added]
    constructor
    · rintro (⟨g', hg', h | h⟩ | ⟨g', hg', h | ⟨_, h⟩⟩)
      · exact absurd h (by simp)
      · exact absurd h (by simp)
      · injection h with h1 h2
        subst h1
        exact hg'
      · exact absurd h (by simp)
    · intro hg
      exact Or.inr ⟨g, hg, Or.inl rfl⟩
  · intro g
    rw [htrace, List.mem_append, mem_clear_trace,
      mem_add_trace (fun g => getGroupFirstM env w (w.groupElem g) false ≠ some el)]
    constructor
    · rintro (⟨g', hg', h | h⟩ | ⟨g', hg', h | ⟨hp, h⟩⟩)
      · exact absurd h (by simp)
      · exact absurd h (by simp)
      · exact absurd h (by simp)
      · injection h with h1 h2
        subst h1
        obtain ⟨ha1, ha2⟩ := (hmem_added g).mp hg'
        exact ⟨ha1, ha2, hp⟩
    · rintro ⟨h1, h2, h3⟩
      exact Or.inr ⟨g, (hmem_added g).mpr ⟨h1, h2⟩, Or.inr ⟨h3, rfl⟩⟩

theorem c7_focus_change_witness :
    (onFocusM envF wF (some 3)).1.focusedGroups = [51, 50] ∧
      (FAction.focusedCall 51 true ∈ (onFocusM envF wF (some 3)).2 ↔
        (51 ∈ newFocusedChain envF wF 3 ∧ 51 ∉ wF.focusedGroups)) := by
  have h := c7_focus_change envF wF 3
    (fun g hg w' hfu =>
      getGroupFirstM_congr envF wF w' (wF.groupElem g) false hfu (fun g' => rfl))
  refine ⟨?_, h.2.2.2.2.1 51⟩
  rw [h.2.1]
  decide
